import Mathlib

/-!
# Verification of the assimp FBX 7.4 exporter core

Shallow embedding of `code/FBXExporter.h` / `code/FBXExporter.cpp`
(the FBX document builder: byte-exact binary emission with offset
back-patching, vertex deduplication, polygon encoding, the definitions
section, the binary footer, and the transform-chain collapse in
`WriteModelNodes`), together with theorems checking the natural-language
specification against it.

Modelling conventions:
* the byte sink (`Assimp::StreamWriterLE` over an `IOStream`) is a state
  machine `WStream` holding the bytes written so far and the cursor; a
  write inside the existing data overwrites (seek-back patching), a write
  at the end appends;
* machine integers are `Nat`/`Int` with explicit `% 2^w` where the C++
  types truncate;
* IEEE-754 payloads are carried as raw bytes (their bit patterns are never
  interpreted by the exporter, only copied), except in the record-level
  scene-translation model, where exact rationals stand for the doubles so
  that the radian→degree conversion can be stated;
* C++ exceptions (`DeadlyExportError`) become `Except`/`Option` results.
-/

namespace FBXE

/-- The byte sink: bytes written so far plus the cursor.  `Assimp::IOStream`
in write mode appends at the end and overwrites after a `Seek` back. -/
structure WStream where
  data : List Nat
  pos : Nat
  deriving Repr

/-- One byte write (`PutU1` / `IOStream::Write` of one byte): overwrite when
the cursor is inside the existing data, append when it is at the end. -/
def wput (s : WStream) (b : Nat) : WStream :=
  if s.pos < s.data.length then ⟨s.data.set s.pos b, s.pos + 1⟩
  else ⟨s.data ++ [b], s.pos + 1⟩

/-- Write a list of bytes in order. -/
def wputs (s : WStream) (bs : List Nat) : WStream := bs.foldl wput s

/-- `Seek`: move the cursor. -/
def wseek (s : WStream) (p : Nat) : WStream := ⟨s.data, p⟩

/-- Little-endian bytes of a 32-bit value, as written by `PutU4`
(truncates to 32 bits). -/
def u32LE (v : Nat) : List Nat :=
  [v % 256, v / 256 % 256, v / 65536 % 256, v / 16777216 % 256]

/-- `PutU4`: write a 32-bit little-endian value. -/
def wputU4 (s : WStream) (v : Nat) : WStream := wputs s (u32LE v)

/-- Read back the little-endian 32-bit value at offset `i`. -/
def readU4 (data : List Nat) (i : Nat) : Nat :=
  data.getD i 0 + 256 * data.getD (i + 1) 0 + 65536 * data.getD (i + 2) 0
    + 16777216 * data.getD (i + 3) 0

theorem wputs_wputs (s : WStream) (a b : List Nat) :
    wputs (wputs s a) b = wputs s (a ++ b) := by
  simp [wputs, List.foldl_append]

theorem wput_at_end (s : WStream) (b : Nat) (h : s.pos = s.data.length) :
    wput s b = ⟨s.data ++ [b], s.pos + 1⟩ := by
  simp [wput, h]

theorem wputs_at_end (s : WStream) (bs : List Nat) (h : s.pos = s.data.length) :
    wputs s bs = ⟨s.data ++ bs, s.pos + bs.length⟩ := by
  induction bs generalizing s with
  | nil => simp [wputs]
  | cons b rest ih =>
    have h1 : wputs s (b :: rest) = wputs (wput s b) rest := rfl
    rw [h1, wput_at_end s b h, ih]
    · simp [Nat.add_comm, Nat.add_assoc, Nat.add_left_comm]
    · simp [h]

theorem set_at_append (pre : List Nat) (x : Nat) (rest : List Nat) (b : Nat) :
    (pre ++ x :: rest).set pre.length b = pre ++ b :: rest := by
  induction pre with
  | nil => rfl
  | cons p ps ih => simp [List.set, ih]

/-- Overwriting a region of exactly the written length, in the middle of the
stream (the seek-back patch of `Node::EndProperties` / `Node::End`). -/
theorem wputs_patch (bs : List Nat) :
    ∀ (mid pre post : List Nat), mid.length = bs.length →
      wputs ⟨pre ++ mid ++ post, pre.length⟩ bs
        = ⟨pre ++ bs ++ post, pre.length + bs.length⟩ := by
  induction bs with
  | nil =>
    intro mid pre post hlen
    have hmid : mid = [] := by
      have : mid.length = 0 := by simpa using hlen
      exact List.eq_nil_of_length_eq_zero this
    subst hmid
    simp [wputs]
  | cons b rest ih =>
    intro mid pre post hlen
    match mid with
    | [] => simp at hlen
    | m :: ms =>
      have hms : ms.length = rest.length := by simpa using hlen
      have h1 : wputs ⟨pre ++ (m :: ms) ++ post, pre.length⟩ (b :: rest)
          = wputs (wput ⟨pre ++ (m :: ms) ++ post, pre.length⟩ b) rest := rfl
      have hlt : pre.length < (pre ++ (m :: ms) ++ post).length := by
        simp [Nat.lt_add_of_pos_right, Nat.succ_add]
      have h2 : wput ⟨pre ++ (m :: ms) ++ post, pre.length⟩ b
          = ⟨pre ++ (b :: (ms ++ post)), pre.length + 1⟩ := by
        simp only [wput]
        rw [if_pos]
        · congr 1
          have : pre ++ (m :: ms) ++ post = pre ++ m :: (ms ++ post) := by simp
          rw [this, set_at_append]
        · exact hlt
      rw [h1, h2]
      have h3 : pre ++ b :: (ms ++ post) = (pre ++ [b]) ++ ms ++ post := by simp
      have h4 : pre.length + 1 = (pre ++ [b]).length := by simp
      rw [h3, h4, ih ms (pre ++ [b]) post hms]
      congr 1
      · simp
      · simp [Nat.add_assoc, Nat.add_comm, Nat.add_left_comm]

/-! ## C1/C2 layer: the typed `FBX::Property` and the `FBX::Node` binary emitter

`FBX::Property` (FBXExporter.h) stores a one-character tag and a byte
vector filled by its strongly-typed constructors; `Property::Dump` writes
the tag byte and then the payload.  The constructors only ever produce the
tags C, Y, I, F, D, L, S, R, i, d (any other construction is rejected at
compile time by the `static_assert` catch-all), so the embedding is an
inductive over exactly those variants.  Scalar float/double payloads are
kept as raw bytes (`uint8_t` values, i.e. `% 256`): the exporter never
interprets them, it only copies bit patterns. -/

/-- Little-endian bytes of a 16-bit signed value (`PutI2`). -/
def i16LE (v : Int) : List Nat :=
  let u := (v % 65536).toNat
  [u % 256, u / 256 % 256]

/-- Little-endian bytes of a 32-bit signed value (`PutI4`). -/
def i32LE (v : Int) : List Nat := u32LE (v % 4294967296).toNat

/-- Little-endian bytes of a 64-bit signed value (`PutI8`). -/
def i64LE (v : Int) : List Nat :=
  let u := (v % 18446744073709551616).toNat
  [u % 256, u / 256 % 256, u / 65536 % 256, u / 16777216 % 256,
   u / 4294967296 % 256, u / 1099511627776 % 256,
   u / 281474976710656 % 256, u / 72057594037927936 % 256]

/-- `FBX::Property`: one variant per constructible tag. -/
inductive FBXProp where
  /-- tag C: `Property(bool)` — one byte 0x00/0x01 -/
  | pC (v : Bool)
  /-- tag Y: `Property(int16_t)` -/
  | pY (v : Int)
  /-- tag I: `Property(int32_t)` -/
  | pI (v : Int)
  /-- tag F: `Property(float)` — 4 raw payload bytes -/
  | pF (b0 b1 b2 b3 : Nat)
  /-- tag D: `Property(double)` — 8 raw payload bytes -/
  | pD (b0 b1 b2 b3 b4 b5 b6 b7 : Nat)
  /-- tag L: `Property(int64_t)` -/
  | pL (v : Int)
  /-- tag S: `Property(string, raw=false)` — bytes of the string -/
  | pS (s : List Nat)
  /-- tag R: `Property(string, raw=true)` or `Property(vector<uint8_t>)` -/
  | pR (r : List Nat)
  /-- tag i: `Property(vector<int32_t>)` -/
  | pAi (va : List Int)
  /-- tag d: `Property(vector<double>)` — raw payload bytes, 8 per element -/
  | pAd (data : List Nat)
  deriving Repr

/-- `Property::Dump`: the bytes one property writes (tag byte, then payload;
strings/raw are length-prefixed; arrays carry the
count/encoding/byte-length envelope).  `Property::Dump` is straight-line
`Put*` calls, so it is embedded as the pure byte list it writes. -/
def propBytes : FBXProp → List Nat
  | .pC v => [67, if v then 1 else 0]
  | .pY v => 89 :: i16LE v
  | .pI v => 73 :: i32LE v
  | .pF b0 b1 b2 b3 => [70, b0 % 256, b1 % 256, b2 % 256, b3 % 256]
  | .pD b0 b1 b2 b3 b4 b5 b6 b7 =>
      [68, b0 % 256, b1 % 256, b2 % 256, b3 % 256,
       b4 % 256, b5 % 256, b6 % 256, b7 % 256]
  | .pL v => 76 :: i64LE v
  | .pS s => 83 :: (u32LE s.length ++ s.map (· % 256))
  | .pR r => 82 :: (u32LE r.length ++ r.map (· % 256))
  | .pAi va =>
      105 :: (u32LE va.length ++ u32LE 0 ++ u32LE (4 * va.length)
        ++ va.flatMap i32LE)
  | .pAd data =>
      100 :: (u32LE (data.length / 8) ++ u32LE 0 ++ u32LE data.length
        ++ (data.take (8 * (data.length / 8))).map (· % 256))

/-- All properties of a node, dumped in order. -/
def propsBytes (ps : List FBXProp) : List Nat := ps.flatMap propBytes

/-- The 13-byte `NULL_RECORD` terminator ending a children list. -/
def NULL_RECORD_BYTES : List Nat := List.replicate 13 0

mutual
/-- `FBX::Node`: name, ordered properties, ordered children. -/
inductive FBXNode where
  | mk (name : List Nat) (props : List FBXProp) (children : FBXNodeList)
inductive FBXNodeList where
  | nil
  | cons (hd : FBXNode) (tl : FBXNodeList)
end

def FBXNodeList.isNilB : FBXNodeList → Bool
  | .nil => true
  | .cons _ _ => false

/-- `Node::Begin`: placeholders for the end offset and the two property
header fields, then the name length byte (`PutU1` truncates) and the raw
name bytes. -/
def nodeBegin (name : List Nat) (s : WStream) : WStream :=
  let s := wputU4 s 0
  let s := wputU4 s 0
  let s := wputU4 s 0
  let s := wput s (name.length % 256)
  wputs s name

/-- `Node::EndProperties`: when at least one property was written, seek back
to `start_pos + 4`, patch the property count and the property section byte
length, and return to the previous position. -/
def endProperties (start_pos property_start num : Nat) (s : WStream) : WStream :=
  if num = 0 then s
  else
    let pos := s.pos
    let s := wseek s (start_pos + 4)
    let s := wputU4 s num
    let s := wputU4 s (pos - property_start)
    wseek s pos

/-- `Node::End`: write the 13-byte NULL record iff there were children, then
seek back and patch the end offset with the current position. -/
def nodeEnd (start_pos : Nat) (has_children : Bool) (s : WStream) : WStream :=
  let s := if has_children then wputs s NULL_RECORD_BYTES else s
  let end_pos := s.pos
  let s := wseek s start_pos
  let s := wputU4 s end_pos
  wseek s end_pos

mutual
/-- `Node::Dump(StreamWriterLE&)`: `Begin`, `DumpProperties`,
`EndProperties`, `DumpChildren`, `End(s, !children.empty())`. -/
def dumpNode : FBXNode → WStream → WStream
  | .mk name props children, s =>
    let start_pos := s.pos
    let s1 := nodeBegin name s
    let property_start := s1.pos
    let s2 := props.foldl (fun s p => wputs s (propBytes p)) s1
    let s3 := endProperties start_pos property_start props.length s2
    let s4 := dumpList children s3
    nodeEnd start_pos (! children.isNilB) s4
def dumpList : FBXNodeList → WStream → WStream
  | .nil, s => s
  | .cons c cs, s => dumpList cs (dumpNode c s)
end

mutual
/-- Total encoded byte size of a record: 12 header bytes, 1 name-length
byte, name, properties, children, plus the 13-byte terminator when
children exist. -/
def nodeSize : FBXNode → Nat
  | .mk name props children =>
      13 + name.length + (propsBytes props).length + listSize children
        + (if children.isNilB then 0 else 13)
def listSize : FBXNodeList → Nat
  | .nil => 0
  | .cons c cs => nodeSize c + listSize cs
end

mutual
/-- The pure byte string a record occupies when dumped starting at absolute
position `pos` (offsets already patched). -/
def nodeEncode (pos : Nat) : FBXNode → List Nat
  | .mk name props children =>
      u32LE (pos + nodeSize (.mk name props children))
        ++ u32LE props.length ++ u32LE (propsBytes props).length
        ++ [name.length % 256] ++ name ++ propsBytes props
        ++ listEncode (pos + 13 + name.length + (propsBytes props).length)
             children
        ++ (if children.isNilB then [] else NULL_RECORD_BYTES)
def listEncode (pos : Nat) : FBXNodeList → List Nat
  | .nil => []
  | .cons c cs => nodeEncode pos c ++ listEncode (pos + nodeSize c) cs
end

theorem wput_eq_wputs (s : WStream) (b : Nat) : wput s b = wputs s [b] := rfl

theorem foldl_props_eq (props : List FBXProp) : ∀ s : WStream,
    props.foldl (fun s p => wputs s (propBytes p)) s = wputs s (propsBytes props) := by
  induction props with
  | nil => intro s; simp [propsBytes, wputs]
  | cons p ps ih =>
    intro s
    rw [List.foldl_cons, ih, wputs_wputs]
    simp [propsBytes]

mutual
theorem nodeEncode_length : ∀ (pos : Nat) (n : FBXNode),
    (nodeEncode pos n).length = nodeSize n
  | pos, .mk name props children => by
    simp [nodeEncode, nodeSize, u32LE,
      listEncode_length (pos + 13 + name.length + (propsBytes props).length)
        children]
    cases children <;> simp [FBXNodeList.isNilB, NULL_RECORD_BYTES] <;> omega
theorem listEncode_length : ∀ (pos : Nat) (l : FBXNodeList),
    (listEncode pos l).length = listSize l
  | _, .nil => by simp [listEncode, listSize]
  | pos, .cons c cs => by
    simp [listEncode, listSize, nodeEncode_length pos c,
      listEncode_length (pos + nodeSize c) cs]
end

theorem nodeBegin_eq (name D : List Nat) :
    nodeBegin name ⟨D, D.length⟩
      = ⟨D ++ u32LE 0 ++ u32LE 0 ++ u32LE 0 ++ [name.length % 256] ++ name,
         D.length + 13 + name.length⟩ := by
  simp only [nodeBegin, wputU4, wput_eq_wputs, wputs_wputs]
  rw [wputs_at_end _ _ rfl]
  congr 1
  · simp
  · simp [u32LE]; omega

theorem endProperties_eq (D name P : List Nat) (np : Nat)
    (hP : np = 0 → P = []) :
    endProperties D.length (D.length + 13 + name.length) np
        ⟨D ++ u32LE 0 ++ u32LE 0 ++ u32LE 0 ++ [name.length % 256] ++ name ++ P,
         D.length + 13 + name.length + P.length⟩
      = ⟨D ++ u32LE 0 ++ u32LE np ++ u32LE P.length
           ++ [name.length % 256] ++ name ++ P,
         D.length + 13 + name.length + P.length⟩ := by
  by_cases hnp : np = 0
  · rw [endProperties, if_pos hnp]
    have hPnil : P = [] := hP hnp
    subst hPnil hnp
    rfl
  · rw [endProperties, if_neg hnp]
    simp only [wseek, wputU4, wputs_wputs]
    have hshape :
        D ++ u32LE 0 ++ u32LE 0 ++ u32LE 0 ++ [name.length % 256] ++ name ++ P
          = (D ++ u32LE 0) ++ (u32LE 0 ++ u32LE 0)
              ++ ([name.length % 256] ++ name ++ P) := by
      simp
    have hl4 : D.length + 4 = (D ++ u32LE 0).length := by simp [u32LE]
    rw [hshape, hl4,
      wputs_patch
        (u32LE np ++ u32LE (D.length + 13 + name.length + P.length
          - (D.length + 13 + name.length)))
        (u32LE 0 ++ u32LE 0) (D ++ u32LE 0)
        ([name.length % 256] ++ name ++ P) (by simp [u32LE])]
    have hsub : D.length + 13 + name.length + P.length
        - (D.length + 13 + name.length) = P.length := by omega
    rw [hsub]
    simp

theorem nodeEnd_eq (D tail : List Nat) (hc : Bool) (c : Nat)
    (hcur : c = D.length + 4 + tail.length) :
    nodeEnd D.length hc ⟨(D ++ u32LE 0) ++ tail, c⟩
      = ⟨(D ++ u32LE (c + (if hc then 13 else 0)))
           ++ (tail ++ (if hc then NULL_RECORD_BYTES else [])),
         c + (if hc then 13 else 0)⟩ := by
  cases hc
  · simp only [nodeEnd, Bool.false_eq_true, if_false]
    simp only [wseek, wputU4]
    rw [wputs_patch (u32LE c) (u32LE 0) D tail (by simp [u32LE])]
    simp
  · simp only [nodeEnd, if_true]
    rw [wputs_at_end _ _ (by simp [hcur, u32LE]; omega)]
    simp only [wseek, wputU4]
    have hshape : ((D ++ u32LE 0) ++ tail) ++ NULL_RECORD_BYTES
        = (D ++ u32LE 0) ++ (tail ++ NULL_RECORD_BYTES) := by simp
    rw [hshape,
      wputs_patch (u32LE (c + NULL_RECORD_BYTES.length)) (u32LE 0) D
        (tail ++ NULL_RECORD_BYTES) (by simp [u32LE])]
    have he : c + NULL_RECORD_BYTES.length = c + 13 := by
      simp [NULL_RECORD_BYTES]
    rw [he]

mutual
/-- Dumping a record at the end of the stream appends exactly its pure
encoding and leaves the cursor just after it: the seek-back patching of
`Node::Dump` realises the closed-form binary layout `nodeEncode`. -/
theorem dumpNode_eq : ∀ (n : FBXNode) (s : WStream), s.pos = s.data.length →
    dumpNode n s = ⟨s.data ++ nodeEncode s.pos n, s.pos + nodeSize n⟩
  | .mk name props children, ⟨D, pos⟩, h => by
    have hpos : pos = D.length := h
    subst hpos
    rw [dumpNode, nodeBegin_eq name D, foldl_props_eq props _]
    have hprops2 :
        wputs ⟨D ++ u32LE 0 ++ u32LE 0 ++ u32LE 0 ++ [name.length % 256] ++ name,
               D.length + 13 + name.length⟩ (propsBytes props)
          = ⟨D ++ u32LE 0 ++ u32LE 0 ++ u32LE 0 ++ [name.length % 256] ++ name
               ++ propsBytes props,
             D.length + 13 + name.length + (propsBytes props).length⟩ := by
      rw [wputs_at_end _ _ (by simp [u32LE]; omega)]
    rw [hprops2]
    have hP : props.length = 0 → propsBytes props = [] := by
      intro h0
      have hnil : props = [] := List.eq_nil_of_length_eq_zero h0
      simp [hnil, propsBytes]
    rw [endProperties_eq D name (propsBytes props) props.length hP]
    have hchild :
        dumpList children
            ⟨D ++ u32LE 0 ++ u32LE props.length ++ u32LE (propsBytes props).length
               ++ [name.length % 256] ++ name ++ propsBytes props,
             D.length + 13 + name.length + (propsBytes props).length⟩
          = ⟨(D ++ u32LE 0 ++ u32LE props.length
               ++ u32LE (propsBytes props).length
               ++ [name.length % 256] ++ name ++ propsBytes props)
               ++ listEncode (D.length + 13 + name.length
                   + (propsBytes props).length) children,
             D.length + 13 + name.length + (propsBytes props).length
               + listSize children⟩ :=
      dumpList_eq children _ (by simp [u32LE]; omega)
    rw [hchild]
    have hshape :
        (D ++ u32LE 0 ++ u32LE props.length ++ u32LE (propsBytes props).length
            ++ [name.length % 256] ++ name ++ propsBytes props)
            ++ listEncode (D.length + 13 + name.length
                + (propsBytes props).length) children
          = (D ++ u32LE 0)
            ++ (u32LE props.length ++ u32LE (propsBytes props).length
              ++ [name.length % 256] ++ name ++ propsBytes props
              ++ listEncode (D.length + 13 + name.length
                + (propsBytes props).length) children) := by
      simp
    rw [hshape, nodeEnd_eq D _ (! children.isNilB) _
      (by
        simp [u32LE,
          listEncode_length (D.length + 13 + name.length
            + (propsBytes props).length) children]
        omega)]
    rw [nodeEncode, nodeSize]
    cases children with
    | nil =>
      simp only [FBXNodeList.isNilB, Bool.not_true, Bool.false_eq_true,
        if_false, if_true]
      have harg : D.length + 13 + name.length + (propsBytes props).length
          + listSize FBXNodeList.nil + 0
          = D.length + (13 + name.length + (propsBytes props).length
            + listSize FBXNodeList.nil + 0) := by omega
      rw [harg]
      simp
    | cons c0 cs =>
      simp only [FBXNodeList.isNilB, Bool.not_false, if_true,
        Bool.false_eq_true, if_false]
      have harg : D.length + 13 + name.length + (propsBytes props).length
          + listSize (FBXNodeList.cons c0 cs) + 13
          = D.length + (13 + name.length + (propsBytes props).length
            + listSize (FBXNodeList.cons c0 cs) + 13) := by omega
      rw [harg]
      simp
theorem dumpList_eq : ∀ (l : FBXNodeList) (s : WStream), s.pos = s.data.length →
    dumpList l s = ⟨s.data ++ listEncode s.pos l, s.pos + listSize l⟩
  | .nil, s, h => by simp [dumpList, listEncode, listSize]
  | .cons c cs, s, h => by
    rw [dumpList, dumpNode_eq c s h,
      dumpList_eq cs _ (by simp [nodeEncode_length]; omega)]
    simp [listEncode, listSize, Nat.add_assoc]
end

theorem readU4_at (pre : List Nat) (v : Nat) (rest : List Nat) :
    readU4 (pre ++ (u32LE v ++ rest)) pre.length = v % 4294967296 := by
  have h0 : ∀ (l : List Nat) (k d : Nat),
      (pre ++ l).getD (pre.length + k) d = l.getD k d := by
    intro l k d
    induction pre with
    | nil => simp
    | cons p ps ih => simpa [Nat.succ_add] using ih
  have h1 := h0 (u32LE v ++ rest) 0 0
  have h2 := h0 (u32LE v ++ rest) 1 0
  have h3 := h0 (u32LE v ++ rest) 2 0
  have h4 := h0 (u32LE v ++ rest) 3 0
  simp only [Nat.add_zero] at h1
  rw [readU4, h1, h2, h3, h4]
  simp only [u32LE, List.cons_append, List.getD_cons_zero, List.getD_cons_succ]
  omega

/-- C1.  For every record written by `Node::Dump` at the end of the stream:
the cursor ends at the first byte after the record; the back-patched
`end_offset` field (read back from the stream) equals that absolute
position (as a 32-bit value); and the record's bytes are its header,
properties and children followed by the 13-byte NULL terminator exactly
when the record has at least one child — a leaf record gets no
terminator. -/
theorem c1_record_offset_closure (name : List Nat) (props : List FBXProp)
    (children : FBXNodeList) (s : WStream) (h : s.pos = s.data.length) :
    (dumpNode (.mk name props children) s).pos
        = s.pos + (nodeEncode s.pos (.mk name props children)).length
    ∧ readU4 (dumpNode (.mk name props children) s).data s.pos
        = (dumpNode (.mk name props children) s).pos % 4294967296
    ∧ (children.isNilB = true →
        (dumpNode (.mk name props children) s).data
          = s.data
            ++ (u32LE (s.pos + nodeSize (.mk name props children))
              ++ u32LE props.length ++ u32LE (propsBytes props).length
              ++ [name.length % 256] ++ name ++ propsBytes props
              ++ listEncode (s.pos + 13 + name.length
                  + (propsBytes props).length) children))
    ∧ (children.isNilB = false →
        (dumpNode (.mk name props children) s).data
          = s.data
            ++ (u32LE (s.pos + nodeSize (.mk name props children))
              ++ u32LE props.length ++ u32LE (propsBytes props).length
              ++ [name.length % 256] ++ name ++ propsBytes props
              ++ listEncode (s.pos + 13 + name.length
                  + (propsBytes props).length) children)
            ++ NULL_RECORD_BYTES) := by
  have hmain := dumpNode_eq (.mk name props children) s h
  refine ⟨?_, ?_, ?_, ?_⟩
  · rw [hmain, nodeEncode_length]
  · rw [hmain]
    have hsh : s.data ++ nodeEncode s.pos (.mk name props children)
        = s.data ++ (u32LE (s.pos + nodeSize (.mk name props children))
          ++ (u32LE props.length ++ u32LE (propsBytes props).length
            ++ [name.length % 256] ++ name ++ propsBytes props
            ++ listEncode (s.pos + 13 + name.length
                + (propsBytes props).length) children
            ++ (if children.isNilB then [] else NULL_RECORD_BYTES))) := by
      rw [nodeEncode]
      simp
    rw [hsh, h, readU4_at]
  · intro hnil
    rw [hmain, nodeEncode]
    simp [hnil]
  · intro hcons
    rw [hmain, nodeEncode]
    simp [hcons]

/-- Witness for C1 at a concrete record (name "A", one boolean property,
one child) dumped on the empty stream. -/
theorem c1_record_offset_closure_witness :
    ((⟨[], 0⟩ : WStream).pos = (⟨[], 0⟩ : WStream).data.length)
    ∧ ((dumpNode (.mk [65] [FBXProp.pC true]
          (.cons (.mk [66] [] .nil) .nil)) ⟨[], 0⟩).pos
        = (⟨[], 0⟩ : WStream).pos
          + (nodeEncode (⟨[], 0⟩ : WStream).pos
              (.mk [65] [FBXProp.pC true]
                (.cons (.mk [66] [] .nil) .nil))).length
    ∧ readU4 (dumpNode (.mk [65] [FBXProp.pC true]
          (.cons (.mk [66] [] .nil) .nil)) ⟨[], 0⟩).data
          (⟨[], 0⟩ : WStream).pos
        = (dumpNode (.mk [65] [FBXProp.pC true]
            (.cons (.mk [66] [] .nil) .nil)) ⟨[], 0⟩).pos % 4294967296
    ∧ ((FBXNodeList.cons (.mk [66] [] .nil) .nil).isNilB = true →
        (dumpNode (.mk [65] [FBXProp.pC true]
            (.cons (.mk [66] [] .nil) .nil)) ⟨[], 0⟩).data
          = (⟨[], 0⟩ : WStream).data
            ++ (u32LE ((⟨[], 0⟩ : WStream).pos
                + nodeSize (.mk [65] [FBXProp.pC true]
                    (.cons (.mk [66] [] .nil) .nil)))
              ++ u32LE [FBXProp.pC true].length
              ++ u32LE (propsBytes [FBXProp.pC true]).length
              ++ [[65].length % 256] ++ [65] ++ propsBytes [FBXProp.pC true]
              ++ listEncode ((⟨[], 0⟩ : WStream).pos + 13 + [65].length
                  + (propsBytes [FBXProp.pC true]).length)
                  (.cons (.mk [66] [] .nil) .nil)))
    ∧ ((FBXNodeList.cons (.mk [66] [] .nil) .nil).isNilB = false →
        (dumpNode (.mk [65] [FBXProp.pC true]
            (.cons (.mk [66] [] .nil) .nil)) ⟨[], 0⟩).data
          = (⟨[], 0⟩ : WStream).data
            ++ (u32LE ((⟨[], 0⟩ : WStream).pos
                + nodeSize (.mk [65] [FBXProp.pC true]
                    (.cons (.mk [66] [] .nil) .nil)))
              ++ u32LE [FBXProp.pC true].length
              ++ u32LE (propsBytes [FBXProp.pC true]).length
              ++ [[65].length % 256] ++ [65] ++ propsBytes [FBXProp.pC true]
              ++ listEncode ((⟨[], 0⟩ : WStream).pos + 13 + [65].length
                  + (propsBytes [FBXProp.pC true]).length)
                  (.cons (.mk [66] [] .nil) .nil))
            ++ NULL_RECORD_BYTES)) :=
  ⟨rfl, c1_record_offset_closure [65] [FBXProp.pC true]
    (.cons (.mk [66] [] .nil) .nil) ⟨[], 0⟩ rfl⟩

/-! ## C3 layer: vertex deduplication (`WriteObjects`, geometry section)

The C++ loop keys a `std::map<aiVector3D,size_t>` on exact floating-point
equality of `(x,y,z)`, appends three doubles to `flattened_vertices` and
the running index to `vertex_indices` on a miss, and reuses the stored
index on a hit.  Coordinates are modelled by an exactly-comparable scalar
(`Int`), which captures exact float equality; the `std::map` is an
association list (only `find`/`insert` semantics are used). -/

/-- `aiVector3D` under exact comparison. -/
structure Vec3 where
  x : Int
  y : Int
  z : Int
  deriving DecidableEq, Repr

/-- The three coordinates in emission order. -/
def Vec3.coords (v : Vec3) : List Int := [v.x, v.y, v.z]

/-- The mutable state of the dedup loop: `flattened_vertices`,
`vertex_indices`, `index_by_vertex_value` and the running `index`. -/
structure DedupSt where
  flat : List Int
  inds : List Nat
  keys : List (Vec3 × Nat)
  idx : Nat
  deriving Repr

/-- `index_by_vertex_value.find(vtx)`. -/
def lookupKey (v : Vec3) : List (Vec3 × Nat) → Option Nat
  | [] => none
  | (k, i) :: rest => if k = v then some i else lookupKey v rest

/-- One iteration of the dedup loop body. -/
def dedupStep (st : DedupSt) (vtx : Vec3) : DedupSt :=
  match lookupKey vtx st.keys with
  | none =>
      ⟨st.flat ++ vtx.coords, st.inds ++ [st.idx],
       st.keys ++ [(vtx, st.idx)], st.idx + 1⟩
  | some j => ⟨st.flat, st.inds ++ [j], st.keys, st.idx⟩

/-- The dedup loop over all source vertices. -/
def dedup (vs : List Vec3) : DedupSt := vs.foldl dedupStep ⟨[], [], [], 0⟩

/-- The unique-vertex table in discovery order. -/
def uniqueTable (vs : List Vec3) : List Vec3 := (dedup vs).keys.map (·.1)

/-- The emitted `Vertices` payload (three doubles per unique vertex). -/
def flattenedVertices (vs : List Vec3) : List Int := (dedup vs).flat

/-- `vertex_indices`: per source vertex, its index into the unique table. -/
def vertexRemap (vs : List Vec3) : List Nat := (dedup vs).inds

/-- First-occurrence subsequence keeping each value once, with an
already-seen accumulator (specification-side definition). -/
def firstOccurAux (seen : List Vec3) : List Vec3 → List Vec3
  | [] => []
  | v :: vs =>
      if v ∈ seen then firstOccurAux seen vs
      else v :: firstOccurAux (v :: seen) vs

/-- The distinct values of a list in first-occurrence order. -/
def firstOccur (vs : List Vec3) : List Vec3 := firstOccurAux [] vs

/-- First index of a value in a list. -/
def idxOf (v : Vec3) : List Vec3 → Nat
  | [] => 0
  | w :: ws => if w = v then 0 else idxOf v ws + 1

/-- The association list built from a key list, indexed from 0. -/
def mkKeysFrom (o : Nat) : List Vec3 → List (Vec3 × Nat)
  | [] => []
  | v :: vs => (v, o) :: mkKeysFrom (o + 1) vs

theorem mkKeysFrom_append (o : Nat) (a b : List Vec3) :
    mkKeysFrom o (a ++ b) = mkKeysFrom o a ++ mkKeysFrom (o + a.length) b := by
  induction a generalizing o with
  | nil => simp [mkKeysFrom]
  | cons v vs ih =>
    simp [mkKeysFrom, ih (o + 1), Nat.add_assoc, Nat.add_comm 1 vs.length]

theorem lookupKey_mkKeysFrom (v : Vec3) (o : Nat) (l : List Vec3) :
    lookupKey v (mkKeysFrom o l)
      = if v ∈ l then some (o + idxOf v l) else none := by
  induction l generalizing o with
  | nil => simp [mkKeysFrom, lookupKey]
  | cons w ws ih =>
    by_cases hw : w = v
    · simp [mkKeysFrom, lookupKey, hw, idxOf]
    · rw [mkKeysFrom, lookupKey, if_neg hw, ih (o + 1)]
      have hmem : (v ∈ w :: ws) ↔ (v ∈ ws) := by
        constructor
        · intro hh
          rcases List.mem_cons.1 hh with h1 | h1
          · exact absurd h1.symm hw
          · exact h1
        · intro hh
          exact List.mem_cons_of_mem w hh
      by_cases hm : v ∈ ws
      · rw [if_pos hm, if_pos (hmem.2 hm)]
        have hstep : idxOf v (w :: ws) = idxOf v ws + 1 := by
          simp [idxOf, hw]
        rw [hstep]
        congr 1
        omega
      · rw [if_neg hm, if_neg (fun hc => hm (hmem.1 hc))]

theorem firstOccurAux_seen_congr (l : List Vec3) :
    ∀ (s1 s2 : List Vec3), (∀ x, x ∈ s1 ↔ x ∈ s2) →
      firstOccurAux s1 l = firstOccurAux s2 l := by
  induction l with
  | nil => intro s1 s2 _; rfl
  | cons v vs ih =>
    intro s1 s2 hmem
    by_cases hv : v ∈ s1
    · rw [firstOccurAux, if_pos hv, firstOccurAux, if_pos ((hmem v).1 hv)]
      exact ih s1 s2 hmem
    · rw [firstOccurAux, if_neg hv, firstOccurAux,
        if_neg (fun hc => hv ((hmem v).2 hc))]
      exact congrArg _ (ih (v :: s1) (v :: s2) (by intro x; simp [hmem x]))

theorem idxOf_append_left (v : Vec3) (u w : List Vec3) (h : v ∈ u) :
    idxOf v (u ++ w) = idxOf v u := by
  induction u with
  | nil => simp at h
  | cons a as ih =>
    by_cases ha : a = v
    · simp [idxOf, ha]
    · have hv : v ∈ as := by
        rcases List.mem_cons.1 h with h1 | h1
        · exact absurd h1.symm ha
        · exact h1
      simp [idxOf, ha, ih hv]

theorem idxOf_append_right (v : Vec3) (u w : List Vec3) (h : ¬ v ∈ u) :
    idxOf v (u ++ w) = u.length + idxOf v w := by
  induction u with
  | nil => simp
  | cons a as ih =>
    have ha : ¬ a = v := fun hc => h (by simp [hc])
    have has : ¬ v ∈ as := fun hc => h (by simp [hc])
    simp [idxOf, ha, ih has]
    omega

/-- Master invariant lemma for the dedup fold: starting from the state
reached after discovering the distinct values `u`, folding the remaining
vertices appends the flattened coordinates of the newly discovered values,
records for every vertex its first-occurrence index in the final table,
and extends the key map in discovery order. -/
theorem dedup_fold_spec (rest : List Vec3) :
    ∀ (u : List Vec3) (f0 : List Int) (i0 : List Nat),
      rest.foldl dedupStep ⟨f0, i0, mkKeysFrom 0 u, u.length⟩
        = ⟨f0 ++ (firstOccurAux u rest).flatMap Vec3.coords,
           i0 ++ rest.map (fun v => idxOf v (u ++ firstOccurAux u rest)),
           mkKeysFrom 0 (u ++ firstOccurAux u rest),
           u.length + (firstOccurAux u rest).length⟩ := by
  induction rest with
  | nil => intro u f0 i0; simp [firstOccurAux]
  | cons v vs ih =>
    intro u f0 i0
    rw [List.foldl_cons]
    by_cases hv : v ∈ u
    · have hstep : dedupStep ⟨f0, i0, mkKeysFrom 0 u, u.length⟩ v
          = ⟨f0, i0 ++ [idxOf v u], mkKeysFrom 0 u, u.length⟩ := by
        rw [dedupStep]
        simp only [lookupKey_mkKeysFrom, if_pos hv, Nat.zero_add]
      rw [hstep, ih u f0 (i0 ++ [idxOf v u])]
      rw [firstOccurAux, if_pos hv]
      have hidx : idxOf v (u ++ firstOccurAux u vs) = idxOf v u :=
        idxOf_append_left v u _ hv
      simp [hidx]
    · have hstep : dedupStep ⟨f0, i0, mkKeysFrom 0 u, u.length⟩ v
          = ⟨f0 ++ v.coords, i0 ++ [u.length],
             mkKeysFrom 0 u ++ [(v, u.length)], u.length + 1⟩ := by
        rw [dedupStep]
        simp [lookupKey_mkKeysFrom, hv]
      have hkeys : mkKeysFrom 0 u ++ [(v, u.length)]
          = mkKeysFrom 0 (u ++ [v]) := by
        rw [mkKeysFrom_append]
        simp [mkKeysFrom]
      have hlen : u.length + 1 = (u ++ [v]).length := by simp
      rw [hstep, hkeys, hlen, ih (u ++ [v]) (f0 ++ v.coords) (i0 ++ [u.length])]
      rw [firstOccurAux, if_neg hv]
      have hseen : firstOccurAux (u ++ [v]) vs = firstOccurAux (v :: u) vs :=
        firstOccurAux_seen_congr vs (u ++ [v]) (v :: u)
          (by intro x; simp [List.mem_append, List.mem_cons, or_comm])
      have hidxv : idxOf v (u ++ v :: firstOccurAux (v :: u) vs)
          = u.length := by
        rw [idxOf_append_right v u _ hv]
        simp [idxOf]
      rw [hseen]
      have hucons : u ++ v :: firstOccurAux (v :: u) vs
          = (u ++ [v]) ++ firstOccurAux (v :: u) vs := by simp
      simp only [DedupSt.mk.injEq]
      refine ⟨?_, ?_, ?_, ?_⟩
      · simp
      · rw [List.map_cons, hidxv, hucons]
        simp
      · rw [hucons]
      · simp [Nat.add_comm, Nat.add_assoc, Nat.add_left_comm]

theorem firstOccurAux_not_seen (x : Vec3) (l : List Vec3) :
    ∀ seen, x ∈ firstOccurAux seen l → ¬ x ∈ seen := by
  induction l with
  | nil => intro seen h; simp [firstOccurAux] at h
  | cons v vs ih =>
    intro seen h
    by_cases hv : v ∈ seen
    · rw [firstOccurAux, if_pos hv] at h
      exact ih seen h
    · rw [firstOccurAux, if_neg hv] at h
      rcases List.mem_cons.1 h with h1 | h1
      · exact h1 ▸ hv
      · intro hx
        exact ih (v :: seen) h1 (by simp [hx])

theorem firstOccurAux_nodup (l : List Vec3) :
    ∀ seen, (firstOccurAux seen l).Nodup := by
  induction l with
  | nil => intro seen; simp [firstOccurAux]
  | cons v vs ih =>
    intro seen
    by_cases hv : v ∈ seen
    · rw [firstOccurAux, if_pos hv]; exact ih seen
    · rw [firstOccurAux, if_neg hv]
      refine List.nodup_cons.2 ⟨?_, ih (v :: seen)⟩
      intro hc
      exact firstOccurAux_not_seen v vs (v :: seen) hc (by simp)

theorem firstOccurAux_mem (x : Vec3) (l : List Vec3) :
    ∀ seen, x ∈ l → ¬ x ∈ seen → x ∈ firstOccurAux seen l := by
  induction l with
  | nil => intro seen h; simp at h
  | cons v vs ih =>
    intro seen hl hs
    by_cases hv : v ∈ seen
    · rw [firstOccurAux, if_pos hv]
      rcases List.mem_cons.1 hl with h1 | h1
      · exact absurd (h1 ▸ hv) hs
      · exact ih seen h1 hs
    · rw [firstOccurAux, if_neg hv]
      by_cases hx : x = v
      · simp [hx]
      · rcases List.mem_cons.1 hl with h1 | h1
        · exact absurd h1 hx
        · exact List.mem_cons_of_mem v (ih (v :: seen) h1 (by simp [hs, hx]))

theorem idxOf_lt_length (v : Vec3) (l : List Vec3) (h : v ∈ l) :
    idxOf v l < l.length := by
  induction l with
  | nil => simp at h
  | cons a as ih =>
    by_cases ha : a = v
    · simp [idxOf, ha]
    · have hv : v ∈ as := by
        rcases List.mem_cons.1 h with h1 | h1
        · exact absurd h1.symm ha
        · exact h1
      simp [idxOf, ha, Nat.succ_lt_succ (ih hv)]

theorem getD_idxOf (v : Vec3) (l : List Vec3) (d : Vec3) (h : v ∈ l) :
    l.getD (idxOf v l) d = v := by
  induction l with
  | nil => simp at h
  | cons a as ih =>
    by_cases ha : a = v
    · simp [idxOf, ha]
    · have hv : v ∈ as := by
        rcases List.mem_cons.1 h with h1 | h1
        · exact absurd h1.symm ha
        · exact h1
      rw [idxOf, if_neg ha, List.getD_cons_succ]
      exact ih hv

theorem mkKeysFrom_map_fst (o : Nat) (l : List Vec3) :
    (mkKeysFrom o l).map (·.1) = l := by
  induction l generalizing o with
  | nil => rfl
  | cons v vs ih => simp [mkKeysFrom, ih (o + 1)]

/-- Closed form of the dedup loop on a full vertex list. -/
theorem dedup_spec (vs : List Vec3) :
    dedup vs = ⟨(firstOccur vs).flatMap Vec3.coords,
      vs.map (fun v => idxOf v (firstOccur vs)),
      mkKeysFrom 0 (firstOccur vs), (firstOccur vs).length⟩ := by
  have h := dedup_fold_spec vs [] [] []
  simp only [mkKeysFrom, List.length_nil] at h
  rw [dedup, h]
  simp [firstOccur]

theorem flatMap_coords_length (l : List Vec3) :
    (l.flatMap Vec3.coords).length = 3 * l.length := by
  induction l with
  | nil => simp
  | cons v vsl ih => simp [ih, Vec3.coords]; omega

theorem mem_firstOccur (v : Vec3) (vs : List Vec3) (h : v ∈ vs) :
    v ∈ firstOccur vs :=
  firstOccurAux_mem v vs [] h (by simp)

theorem getD_map_lt (f : Vec3 → Nat) (l : List Vec3) (i : Nat) (d1 : Nat)
    (d2 : Vec3) (h : i < l.length) :
    (l.map f).getD i d1 = f (l.getD i d2) := by
  rw [List.getD_eq_getElem (l.map f) d1 (by simpa using h),
    List.getD_eq_getElem l d2 h, List.getElem_map]

theorem getD_mem_of_lt (l : List Vec3) (i : Nat) (d : Vec3)
    (h : i < l.length) : l.getD i d ∈ l := by
  rw [List.getD_eq_getElem l d h]
  exact List.getElem_mem h

/-- C3.  The `Vertices` table built by `WriteObjects` lists each distinct
vertex value exactly once, in first-occurrence order, three doubles per
unique vertex; the per-source-vertex remap is sound: equal source
vertices receive equal table indices, every remapped index is in range,
and the table entry at `remap i` is the value of source vertex `i`. -/
theorem c3_vertex_dedup_sound (vs : List Vec3) :
    flattenedVertices vs = (uniqueTable vs).flatMap Vec3.coords
    ∧ uniqueTable vs = firstOccur vs
    ∧ (uniqueTable vs).Nodup
    ∧ (flattenedVertices vs).length = 3 * (uniqueTable vs).length
    ∧ (vertexRemap vs).length = vs.length
    ∧ (∀ i, i < vs.length →
        (vertexRemap vs).getD i 0 < (uniqueTable vs).length
        ∧ (uniqueTable vs).getD ((vertexRemap vs).getD i 0) ⟨0, 0, 0⟩
            = vs.getD i ⟨0, 0, 0⟩)
    ∧ (∀ i j, i < vs.length → j < vs.length →
        vs.getD i ⟨0, 0, 0⟩ = vs.getD j ⟨0, 0, 0⟩ →
        (vertexRemap vs).getD i 0 = (vertexRemap vs).getD j 0) := by
  have hu : uniqueTable vs = firstOccur vs := by
    rw [uniqueTable, dedup_spec, mkKeysFrom_map_fst]
  have hr : vertexRemap vs = vs.map (fun v => idxOf v (firstOccur vs)) := by
    rw [vertexRemap, dedup_spec]
  have hf : flattenedVertices vs = (firstOccur vs).flatMap Vec3.coords := by
    rw [flattenedVertices, dedup_spec]
  refine ⟨?_, hu, ?_, ?_, ?_, ?_, ?_⟩
  · rw [hf, hu]
  · rw [hu]; exact firstOccurAux_nodup vs []
  · rw [hf, hu, flatMap_coords_length]
  · rw [hr]; simp
  · intro i hi
    have hgi : (vertexRemap vs).getD i 0
        = idxOf (vs.getD i ⟨0, 0, 0⟩) (firstOccur vs) := by
      rw [hr, getD_map_lt _ vs i 0 ⟨0, 0, 0⟩ hi]
    have hmem : vs.getD i ⟨0, 0, 0⟩ ∈ firstOccur vs :=
      mem_firstOccur _ vs (getD_mem_of_lt vs i _ hi)
    constructor
    · rw [hgi, hu]
      exact idxOf_lt_length _ _ hmem
    · rw [hgi, hu]
      exact getD_idxOf _ _ _ hmem
  · intro i j hi hj heq
    have hgi : (vertexRemap vs).getD i 0
        = idxOf (vs.getD i ⟨0, 0, 0⟩) (firstOccur vs) := by
      rw [hr, getD_map_lt _ vs i 0 ⟨0, 0, 0⟩ hi]
    have hgj : (vertexRemap vs).getD j 0
        = idxOf (vs.getD j ⟨0, 0, 0⟩) (firstOccur vs) := by
      rw [hr, getD_map_lt _ vs j 0 ⟨0, 0, 0⟩ hj]
    rw [hgi, hgj, heq]

/-- Witness for C3 on a concrete vertex list with a duplicate: source
vertices 0 and 2 share the value (0,0,0), get the same remap index, and
the table entry there reproduces the value. -/
theorem c3_vertex_dedup_sound_witness :
    (2 < [(⟨0, 0, 0⟩ : Vec3), ⟨1, 0, 0⟩, ⟨0, 0, 0⟩].length
      ∧ (uniqueTable [⟨0, 0, 0⟩, ⟨1, 0, 0⟩, ⟨0, 0, 0⟩]).getD
          ((vertexRemap [⟨0, 0, 0⟩, ⟨1, 0, 0⟩, ⟨0, 0, 0⟩]).getD 2 0) ⟨0, 0, 0⟩
        = [(⟨0, 0, 0⟩ : Vec3), ⟨1, 0, 0⟩, ⟨0, 0, 0⟩].getD 2 ⟨0, 0, 0⟩)
    ∧ (vertexRemap [⟨0, 0, 0⟩, ⟨1, 0, 0⟩, ⟨0, 0, 0⟩]).getD 0 0
        = (vertexRemap [⟨0, 0, 0⟩, ⟨1, 0, 0⟩, ⟨0, 0, 0⟩]).getD 2 0 :=
  ⟨⟨by decide,
    ((c3_vertex_dedup_sound [⟨0, 0, 0⟩, ⟨1, 0, 0⟩, ⟨0, 0, 0⟩]).2.2.2.2.2.1
      2 (by decide)).2⟩,
   (c3_vertex_dedup_sound [⟨0, 0, 0⟩, ⟨1, 0, 0⟩, ⟨0, 0, 0⟩]).2.2.2.2.2.2
     0 2 (by decide) (by decide) (by decide)⟩

/-! ## C2/C10 layer: polygon encoding (`WriteObjects`, `PolygonVertexIndex`)

The C++ loop, per face, pushes `vertex_indices[f.mIndices[pvi]]` for
`pvi < mNumIndices - 1` and then `-1 - vertex_indices[f.mIndices[mNumIndices-1]]`.
Each array access is modelled as an `Option` lookup (`List.get?`): C++
behaviour is undefined out of range, so the embedding is defined exactly
on the in-bounds executions. -/

theorem get?_eq_some_getD (l : List Nat) (i d : Nat) (h : i < l.length) :
    l.get? i = some (l.getD i d) := by
  rw [List.get?_eq_getElem?, List.getElem?_eq_getElem h,
    List.getD_eq_getElem l d h]

/-- The polygon loop body for one face, all accesses checked. -/
def polygonFaceChecked (vi : List Nat) (f : List Nat) : Option (List Int) :=
  match (f.take (f.length - 1)).mapM
      (fun ix => (vi.get? ix).map (fun k => (k : Int))) with
  | none => none
  | some firstPart =>
    match f.get? (f.length - 1) with
    | none => none
    | some lastIx =>
      match vi.get? lastIx with
      | none => none
      | some lastV => some (firstPart ++ [-1 - (lastV : Int)])

/-- The whole `PolygonVertexIndex` payload, face by face. -/
def polygonDataChecked (vi : List Nat) (faces : List (List Nat)) :
    Option (List Int) :=
  (faces.mapM (polygonFaceChecked vi)).map List.flatten

/-- Closed form of one face's block: the remapped indices, with the last
one replaced by `-(idx+1)`. -/
def faceBlock (vi : List Nat) (f : List Nat) : List Int :=
  (f.take (f.length - 1)).map (fun ix => ((vi.getD ix 0 : Nat) : Int))
    ++ [-1 - (vi.getD (f.getD (f.length - 1) 0) 0 : Int)]

/-- Decoder for the polygon-terminator convention: split at negative
entries, recovering `-(v+1) ↦ v`. -/
def decodeGo (acc : List Nat) : List Int → List (List Nat)
  | [] => []
  | x :: rest =>
      if x < 0 then (acc ++ [(-x - 1).toNat]) :: decodeGo [] rest
      else decodeGo (acc ++ [x.toNat]) rest

/-- Decode a `PolygonVertexIndex` payload back into faces. -/
def decodePVI (l : List Int) : List (List Nat) := decodeGo [] l

theorem mapM_lookup_eq_some (vi : List Nat) (l : List Nat)
    (h : ∀ i ∈ l, i < vi.length) :
    l.mapM (fun ix => (vi.get? ix).map (fun k => (k : Int)))
      = some (l.map (fun ix => ((vi.getD ix 0 : Nat) : Int))) := by
  induction l with
  | nil => rfl
  | cons i is ih =>
    rw [List.mapM_cons, get?_eq_some_getD vi i 0 (h i (by simp))]
    rw [ih (fun j hj => h j (by simp [hj]))]
    rfl

theorem polygonFaceChecked_eq_some (vi : List Nat) (f : List Nat)
    (hne : f ≠ []) (hb : ∀ i ∈ f, i < vi.length) :
    polygonFaceChecked vi f = some (faceBlock vi f) := by
  have hlt : f.length - 1 < f.length := by
    cases f with
    | nil => exact absurd rfl hne
    | cons a as => simp
  have hmem : f.getD (f.length - 1) 0 ∈ f := by
    rw [List.getD_eq_getElem f 0 hlt]
    exact List.getElem_mem hlt
  rw [polygonFaceChecked,
    mapM_lookup_eq_some vi (f.take (f.length - 1))
      (fun i hi => hb i (List.mem_of_mem_take hi)),
    get?_eq_some_getD f (f.length - 1) 0 hlt]
  dsimp only
  rw [get?_eq_some_getD vi (f.getD (f.length - 1) 0) 0 (hb _ hmem)]
  rfl

theorem polygonDataChecked_eq_some (vi : List Nat) (faces : List (List Nat))
    (hne : ∀ f ∈ faces, f ≠ [])
    (hb : ∀ f ∈ faces, ∀ i ∈ f, i < vi.length) :
    polygonDataChecked vi faces = some (faces.flatMap (faceBlock vi)) := by
  rw [polygonDataChecked]
  have hm : faces.mapM (polygonFaceChecked vi)
      = some (faces.map (faceBlock vi)) := by
    induction faces with
    | nil => rfl
    | cons f fs ih =>
      rw [List.mapM_cons,
        polygonFaceChecked_eq_some vi f (hne f (by simp)) (hb f (by simp)),
        ih (fun g hg => hne g (by simp [hg]))
          (fun g hg => hb g (by simp [hg]))]
      rfl
  rw [hm]
  simp [List.flatMap_def]

theorem decodeGo_block (ns : List Nat) (k : Nat) (rest : List Int) :
    ∀ acc, decodeGo acc ((ns.map Int.ofNat) ++ (-1 - (k : Int)) :: rest)
      = (acc ++ ns ++ [k]) :: decodeGo [] rest := by
  induction ns with
  | nil =>
    intro acc
    rw [List.map_nil, List.nil_append, decodeGo]
    rw [if_pos (by omega)]
    have hk : (-(-1 - (k : Int)) - 1).toNat = k := by omega
    rw [hk]
    simp
  | cons n ns ih =>
    intro acc
    rw [List.map_cons, List.cons_append, decodeGo]
    have hng : ¬ Int.ofNat n < 0 := by
      rw [Int.ofNat_eq_natCast]
      omega
    rw [if_neg hng]
    have hn : (Int.ofNat n).toNat = n := rfl
    rw [hn, ih (acc ++ [n])]
    simp

theorem take_sub_one_append_last (f : List Nat) (d : Nat) (h : f ≠ []) :
    f.take (f.length - 1) ++ [f.getD (f.length - 1) d] = f := by
  induction f with
  | nil => exact absurd rfl h
  | cons a as ih =>
    cases as with
    | nil => simp
    | cons b bs =>
      have h2 := ih (by simp)
      simp only [List.length_cons, Nat.succ_sub_one] at h2 ⊢
      rw [List.take_succ_cons, List.getD_cons_succ, List.cons_append]
      exact congrArg (a :: ·) h2

theorem decodePVI_flatMap (vi : List Nat) (faces : List (List Nat))
    (hne : ∀ f ∈ faces, f ≠ []) :
    decodePVI (faces.flatMap (faceBlock vi))
      = faces.map (fun f => f.map (fun i => vi.getD i 0)) := by
  rw [decodePVI]
  induction faces with
  | nil => simp [decodeGo]
  | cons f fs ih =>
    rw [List.flatMap_cons, List.map_cons]
    have hmapsplit : ∀ l : List Nat,
        l.map (fun ix => ((vi.getD ix 0 : Nat) : Int))
          = (l.map (fun i => vi.getD i 0)).map Int.ofNat := by
      intro l
      rw [List.map_map]
      rfl
    have hface : faceBlock vi f ++ fs.flatMap (faceBlock vi)
        = (((f.take (f.length - 1)).map (fun i => vi.getD i 0)).map
            Int.ofNat)
          ++ (-1 - ((vi.getD (f.getD (f.length - 1) 0) 0 : Nat) : Int))
            :: fs.flatMap (faceBlock vi) := by
      rw [faceBlock, hmapsplit]
      simp
    rw [hface, decodeGo_block]
    have hmap : ([] : List Nat)
          ++ ((f.take (f.length - 1)).map (fun i => vi.getD i 0))
          ++ [vi.getD (f.getD (f.length - 1) 0) 0]
        = f.map (fun i => vi.getD i 0) := by
      rw [List.nil_append]
      have := take_sub_one_append_last f 0 (hne f (by simp))
      calc (f.take (f.length - 1)).map (fun i => vi.getD i 0)
            ++ [vi.getD (f.getD (f.length - 1) 0) 0]
          = (f.take (f.length - 1)
              ++ [f.getD (f.length - 1) 0]).map (fun i => vi.getD i 0) := by
            rw [List.map_append]; rfl
        _ = f.map (fun i => vi.getD i 0) := by rw [this]
    rw [hmap, ih (fun g hg => hne g (by simp [hg]))]

/-- C2.  For faces with at least one index each (and indices inside the
remap table, the in-bounds executions of the C++ loop), the emitted
`PolygonVertexIndex` array is exactly the face-by-face concatenation of
remapped indices with the last index of each face replaced by `-(idx+1)`;
all non-final entries are non-negative and each face's final entry is
negative; decoding the payload reproduces the input faces up to the
vertex remap. -/
theorem c2_polygon_encoding (vi : List Nat) (faces : List (List Nat))
    (hne : ∀ f ∈ faces, f ≠ [])
    (hb : ∀ f ∈ faces, ∀ i ∈ f, i < vi.length) :
    polygonDataChecked vi faces = some (faces.flatMap (faceBlock vi))
    ∧ (∀ f ∈ faces,
        (∀ x ∈ (f.take (f.length - 1)).map
            (fun ix => ((vi.getD ix 0 : Nat) : Int)), 0 ≤ x)
        ∧ (faceBlock vi f).getLast?
            = some (-1 - (vi.getD (f.getD (f.length - 1) 0) 0 : Int))
        ∧ (-1 - (vi.getD (f.getD (f.length - 1) 0) 0 : Int)) < 0)
    ∧ decodePVI (faces.flatMap (faceBlock vi))
        = faces.map (fun f => f.map (fun i => vi.getD i 0)) := by
  refine ⟨polygonDataChecked_eq_some vi faces hne hb, ?_,
    decodePVI_flatMap vi faces hne⟩
  intro f _
  refine ⟨?_, ?_, by omega⟩
  · intro x hx
    rcases List.mem_map.1 hx with ⟨ix, _, hix⟩
    omega
  · rw [faceBlock]
    exact List.getLast?_concat _

/-- Witness for C2: one quad and one triangle over a three-entry remap. -/
theorem c2_polygon_encoding_witness :
    ((∀ f ∈ [[0, 1, 2], [2, 1, 0]], f ≠ [])
      ∧ (∀ f ∈ [[0, 1, 2], [2, 1, 0]], ∀ i ∈ f, i < [5, 6, 7].length))
    ∧ (polygonDataChecked [5, 6, 7] [[0, 1, 2], [2, 1, 0]]
        = some ([[0, 1, 2], [2, 1, 0]].flatMap (faceBlock [5, 6, 7]))
      ∧ decodePVI ([[0, 1, 2], [2, 1, 0]].flatMap (faceBlock [5, 6, 7]))
        = [[0, 1, 2], [2, 1, 0]].map
            (fun f => f.map (fun i => [5, 6, 7].getD i 0))) :=
  ⟨⟨by decide, by decide⟩,
   (c2_polygon_encoding [5, 6, 7] [[0, 1, 2], [2, 1, 0]]
      (by decide) (by decide)).1,
   (c2_polygon_encoding [5, 6, 7] [[0, 1, 2], [2, 1, 0]]
      (by decide) (by decide)).2.2⟩

/-! ## C10 layer: the whole geometry emission of `WriteObjects`, with every
array access checked

`aiMesh` is the read-only scene adapter: vertices, optional per-vertex
normals, UV channels (per-vertex `aiVector3D`s plus their declared
component counts), and faces as index lists.  The embedding returns
`none` exactly when some C++ array access would be out of range. -/

/-- The slice of `aiMesh` consumed by the geometry writer. -/
structure AiMesh where
  vertices : List Vec3
  normals : Option (List Vec3)
  uvChannels : List (List Vec3)
  uvComps : List Nat
  faces : List (List Nat)

theorem get?_eq_some_getD' {α : Type} (l : List α) (i : Nat) (d : α)
    (h : i < l.length) : l.get? i = some (l.getD i d) := by
  rw [List.get?_eq_getElem?, List.getElem?_eq_getElem h,
    List.getD_eq_getElem l d h]

theorem isSome_of_get?_lt {α : Type} (l : List α) (i : Nat)
    (h : i < l.length) : (l.get? i).isSome := by
  rw [List.get?_eq_getElem?, List.getElem?_eq_getElem h]
  rfl

theorem lt_of_get?_isSome {α : Type} (l : List α) (i : Nat)
    (h : (l.get? i).isSome) : i < l.length := by
  by_contra hc
  rw [List.get?_eq_getElem?, List.getElem?_eq_none (by omega)] at h
  exact absurd h (by simp)

theorem mapM_isSome_of_forall {α β : Type} (g : α → Option β) :
    ∀ l : List α, (∀ x ∈ l, (g x).isSome) → (l.mapM g).isSome := by
  intro l
  induction l with
  | nil => intro _; rfl
  | cons a as ih =>
    intro h
    rcases Option.isSome_iff_exists.1 (h a (by simp)) with ⟨b, hb⟩
    rcases Option.isSome_iff_exists.1 (ih (fun x hx => h x (by simp [hx])))
      with ⟨bs, hbs⟩
    rw [List.mapM_cons, hb, hbs]
    rfl

theorem forall_of_mapM_isSome {α β : Type} (g : α → Option β) :
    ∀ l : List α, (l.mapM g).isSome → ∀ x ∈ l, (g x).isSome := by
  intro l
  induction l with
  | nil => intro _ x hx; simp at hx
  | cons a as ih =>
    intro h x hx
    rw [List.mapM_cons] at h
    match hga : g a with
    | none => rw [hga] at h; exact absurd h (by simp)
    | some b =>
      rw [hga] at h
      match hm : as.mapM g with
      | none => rw [hm] at h; exact absurd h (by simp)
      | some bs =>
        rcases List.mem_cons.1 hx with h1 | h1
        · rw [h1, hga]; rfl
        · exact ih (by rw [hm]; rfl) x h1

theorem polygonFaceChecked_isSome_iff (vi : List Nat) (f : List Nat) :
    (polygonFaceChecked vi f).isSome
      ↔ (f ≠ [] ∧ ∀ i ∈ f, i < vi.length) := by
  constructor
  · intro h
    have hne : f ≠ [] := by
      intro hf
      subst hf
      have hnone : polygonFaceChecked vi [] = none := rfl
      rw [hnone] at h
      exact absurd h (by simp)
    refine ⟨hne, ?_⟩
    match hm : (f.take (f.length - 1)).mapM
        (fun ix => (vi.get? ix).map (fun k => (k : Int))) with
    | none =>
      have hzero : polygonFaceChecked vi f = none := by
        rw [polygonFaceChecked, hm]
      rw [hzero] at h
      exact absurd h (by simp)
    | some firstPart =>
      match hl : f.get? (f.length - 1) with
      | none =>
        have hzero : polygonFaceChecked vi f = none := by
          rw [polygonFaceChecked, hm, hl]
        rw [hzero] at h
        exact absurd h (by simp)
      | some lastIx =>
        match hv : vi.get? lastIx with
        | none =>
          have hzero : polygonFaceChecked vi f = none := by
            rw [polygonFaceChecked, hm, hl]
            dsimp only
            rw [hv]
          rw [hzero] at h
          exact absurd h (by simp)
        | some lastV =>
          intro i hi
          have hsplit := take_sub_one_append_last f 0 hne
          have hlt : f.length - 1 < f.length := by
            cases f with
            | nil => exact absurd rfl hne
            | cons a as => simp
          rw [← hsplit] at hi
          rcases List.mem_append.1 hi with h1 | h1
          · have := forall_of_mapM_isSome _ _ (by rw [hm]; rfl) i h1
            have h2 : (vi.get? i).isSome := by
              match hg : vi.get? i with
              | none => rw [hg] at this; exact absurd this (by simp)
              | some _ => rfl
            exact lt_of_get?_isSome vi i h2
          · have h1' : i = f.getD (f.length - 1) 0 := by simpa using h1
            have hx : f.get? (f.length - 1)
                = some (f.getD (f.length - 1) 0) :=
              get?_eq_some_getD' f (f.length - 1) 0 hlt
            have hlx : lastIx = f.getD (f.length - 1) 0 := by
              rw [hl] at hx
              injection hx
            rw [h1', ← hlx]
            exact lt_of_get?_isSome vi lastIx (by rw [hv]; rfl)
  · intro ⟨hne, hb⟩
    rw [polygonFaceChecked_eq_some vi f hne hb]
    rfl

theorem vertexRemap_length (vs : List Vec3) :
    (dedup vs).inds.length = vs.length := by
  rw [dedup_spec]
  simp

/-- `LayerElementNormal`: per polygon-vertex, fetch the normal of the
face's vertex index and push the three components. -/
def normalsChecked (ns : List Vec3) (faces : List (List Nat)) :
    Option (List Int) :=
  (faces.mapM (fun (f : List Nat) => f.mapM (fun ix => ns.get? ix))).map
    (fun l => l.flatten.flatMap Vec3.coords)

/-- State of the per-channel UV deduplication (`index_by_uv`). -/
structure UVSt where
  data : List Int
  inds : List Nat
  keys : List (Vec3 × Nat)
  idx : Nat

/-- One iteration of the UV dedup body: on a miss, push the first
`mNumUVComponents[uvi]` components of the UV value. -/
def uvDedupStep (comps : Nat) (st : UVSt) (uv : Vec3) : UVSt :=
  match lookupKey uv st.keys with
  | none =>
      ⟨st.data ++ uv.coords.take comps, st.inds ++ [st.idx],
       st.keys ++ [(uv, st.idx)], st.idx + 1⟩
  | some j => ⟨st.data, st.inds ++ [j], st.keys, st.idx⟩

/-- The UV fetch loop: per face, indices `pvi < mNumIndices - 1` only
(the off-by-one the spec documents for `IndexToDirect`). -/
def uvFetchChecked (ch : List Vec3) (faces : List (List Nat)) :
    Option (List Vec3) :=
  (faces.mapM (fun (f : List Nat) => (f.take (f.length - 1)).mapM
    (fun ix => ch.get? ix))).map List.flatten

/-- One `LayerElementUV` channel: fetch all referenced UVs in order, then
run the dedup fold over them (the fold itself is total; only the fetches
can go out of range). -/
def uvChannelChecked (ch : List Vec3) (comps : Nat)
    (faces : List (List Nat)) : Option (List Int × List Nat) :=
  (uvFetchChecked ch faces).map (fun fetched =>
    let st := fetched.foldl (uvDedupStep comps) ⟨[], [], [], 0⟩
    (st.data, st.inds))

/-- All UV channels, each with its declared component count. -/
def uvAllChecked (m : AiMesh) : Option (List (List Int × List Nat)) :=
  (List.range m.uvChannels.length).mapM
    (fun uvi => uvChannelChecked (m.uvChannels.getD uvi [])
      (m.uvComps.getD uvi 0) m.faces)

/-- Everything the geometry section of `WriteObjects` computes for one
mesh, in source order: the dedup vertex table and remap, the
`PolygonVertexIndex` payload, the optional `Normals` payload, and the
per-channel `UV`/`UVIndex` payloads. -/
structure GeomOut where
  verticesFlat : List Int
  remap : List Nat
  pvi : List Int
  normalData : Option (List Int)
  uvData : List (List Int × List Nat)

/-- The geometry emission per mesh, each array access checked. -/
def writeGeometryChecked (m : AiMesh) : Option GeomOut :=
  let st := dedup m.vertices
  match polygonDataChecked st.inds m.faces with
  | none => none
  | some pvi =>
    match (match m.normals with
           | none => some none
           | some ns => (normalsChecked ns m.faces).map some) with
    | none => none
    | some nd =>
      match uvAllChecked m with
      | none => none
      | some uv => some ⟨st.flat, st.inds, pvi, nd, uv⟩

/-- C10.  With the scene adapter's own invariants (normal and UV arrays
are per-vertex), geometry emission is total exactly when every face has
at least one index and all face indices are below the vertex count: under
that precondition no array access is out of range, and whenever it fails
some face violates it. -/
theorem c10_geometry_totality (m : AiMesh)
    (hn : ∀ ns, m.normals = some ns → ns.length = m.vertices.length)
    (hc : ∀ ch ∈ m.uvChannels, ch.length = m.vertices.length) :
    (writeGeometryChecked m).isSome
      ↔ (∀ f ∈ m.faces, f ≠ [] ∧ ∀ i ∈ f, i < m.vertices.length) := by
  have hvi : (dedup m.vertices).inds.length = m.vertices.length :=
    vertexRemap_length m.vertices
  constructor
  · intro h
    rw [writeGeometryChecked] at h
    match hp : polygonDataChecked (dedup m.vertices).inds m.faces with
    | none => rw [hp] at h; exact absurd h (by simp)
    | some pvi =>
      intro f hf
      have hpoly : (polygonFaceChecked (dedup m.vertices).inds f).isSome := by
        have hm : (m.faces.mapM
            (polygonFaceChecked (dedup m.vertices).inds)).isSome := by
          rw [polygonDataChecked] at hp
          match hq : m.faces.mapM
              (polygonFaceChecked (dedup m.vertices).inds) with
          | none => rw [hq] at hp; exact absurd hp (by simp)
          | some _ => rfl
        exact forall_of_mapM_isSome _ m.faces hm f hf
      have := (polygonFaceChecked_isSome_iff _ f).1 hpoly
      rw [hvi] at this
      exact this
  · intro hpre
    have hne : ∀ f ∈ m.faces, f ≠ [] := fun f hf => (hpre f hf).1
    have hbv : ∀ f ∈ m.faces, ∀ i ∈ f, i < (dedup m.vertices).inds.length := by
      intro f hf i hi
      rw [hvi]
      exact (hpre f hf).2 i hi
    rw [writeGeometryChecked,
      polygonDataChecked_eq_some (dedup m.vertices).inds m.faces hne hbv]
    have hnd : (match m.normals with
        | none => some (none : Option (List Int))
        | some ns => (normalsChecked ns m.faces).map some).isSome := by
      match hns : m.normals with
      | none => rfl
      | some ns =>
        have hlen := hn ns hns
        have : (normalsChecked ns m.faces).isSome := by
          rw [normalsChecked]
          have hm : (m.faces.mapM
              (fun (f : List Nat) => f.mapM (fun ix => ns.get? ix))).isSome := by
            apply mapM_isSome_of_forall
            intro f hf
            apply mapM_isSome_of_forall
            intro i hi
            exact isSome_of_get?_lt ns i (by rw [hlen]; exact (hpre f hf).2 i hi)
          rcases Option.isSome_iff_exists.1 hm with ⟨l, hl⟩
          rw [hl]
          rfl
        rcases Option.isSome_iff_exists.1 this with ⟨nd, hnd2⟩
        dsimp only
        rw [hnd2]
        rfl
    rcases Option.isSome_iff_exists.1 hnd with ⟨nd, hnd2⟩
    rw [hnd2]
    have huv : (uvAllChecked m).isSome := by
      rw [uvAllChecked]
      apply mapM_isSome_of_forall
      intro uvi huvi
      have hlt : uvi < m.uvChannels.length := by simpa using huvi
      have hch : m.uvChannels.getD uvi [] ∈ m.uvChannels := by
        rw [List.getD_eq_getElem _ _ hlt]
        exact List.getElem_mem hlt
      have hlen := hc _ hch
      rw [uvChannelChecked]
      have hfetch : (uvFetchChecked (m.uvChannels.getD uvi [])
          m.faces).isSome := by
        rw [uvFetchChecked]
        have hm : (m.faces.mapM (fun (f : List Nat) => (f.take (f.length - 1)).mapM
            (fun ix => (m.uvChannels.getD uvi []).get? ix))).isSome := by
          apply mapM_isSome_of_forall
          intro f hf
          apply mapM_isSome_of_forall
          intro i hi
          exact isSome_of_get?_lt _ i
            (by rw [hlen]; exact (hpre f hf).2 i (List.mem_of_mem_take hi))
        rcases Option.isSome_iff_exists.1 hm with ⟨l, hl⟩
        rw [hl]
        rfl
      rcases Option.isSome_iff_exists.1 hfetch with ⟨l, hl⟩
      rw [hl]
      rfl
    rcases Option.isSome_iff_exists.1 huv with ⟨uv, huv2⟩
    rw [huv2]
    rfl

/-- Witness for C10 on a concrete triangle mesh with normals and one UV
channel: emission succeeds, and on the same mesh with an empty face it
fails. -/
theorem c10_geometry_totality_witness :
    ((∀ ns, (some [(⟨0, 0, 1⟩ : Vec3), ⟨0, 0, 1⟩, ⟨0, 0, 1⟩] : Option (List Vec3))
          = some ns → ns.length
          = [(⟨0, 0, 0⟩ : Vec3), ⟨1, 0, 0⟩, ⟨0, 1, 0⟩].length)
      ∧ (∀ ch ∈ [[(⟨0, 0, 0⟩ : Vec3), ⟨1, 0, 0⟩, ⟨0, 1, 0⟩]], ch.length
          = [(⟨0, 0, 0⟩ : Vec3), ⟨1, 0, 0⟩, ⟨0, 1, 0⟩].length))
    ∧ ((writeGeometryChecked
          ⟨[⟨0, 0, 0⟩, ⟨1, 0, 0⟩, ⟨0, 1, 0⟩],
           some [⟨0, 0, 1⟩, ⟨0, 0, 1⟩, ⟨0, 0, 1⟩],
           [[⟨0, 0, 0⟩, ⟨1, 0, 0⟩, ⟨0, 1, 0⟩]], [2], [[0, 1, 2]]⟩).isSome
        ↔ (∀ f ∈ [[0, 1, 2]], f ≠ []
            ∧ ∀ i ∈ f, i < [(⟨0, 0, 0⟩ : Vec3), ⟨1, 0, 0⟩, ⟨0, 1, 0⟩].length)) :=
  ⟨⟨by decide, by decide⟩,
   c10_geometry_totality
     ⟨[⟨0, 0, 0⟩, ⟨1, 0, 0⟩, ⟨0, 1, 0⟩],
      some [⟨0, 0, 1⟩, ⟨0, 0, 1⟩, ⟨0, 0, 1⟩],
      [[⟨0, 0, 0⟩, ⟨1, 0, 0⟩, ⟨0, 1, 0⟩]], [2], [[0, 1, 2]]⟩
     (by decide) (by decide)⟩

/-! ## C4/C7/C8 layer: model hierarchy and transform-chain collapse

`WriteModelNodes` walks the `aiNode` tree.  This layer models it at the
record level: the FBX records it dumps (`Model` nodes and their
`Properties70` children) and the `C` connection records it accumulates,
with exact rationals in place of the doubles so that the radian→degree
conversion is statable.  The `last_uid` counter is threaded explicitly
(`generate_uid()` is `++last_uid`). -/

/-- A 3-vector of exact scalars standing for `aiVector3D`. -/
structure V3 where
  x : ℚ
  y : ℚ
  z : ℚ
  deriving DecidableEq

def V3.zero : V3 := ⟨0, 0, 0⟩
def V3.one : V3 := ⟨1, 1, 1⟩

/-- The double literal `6.283185307179586476925286766559` from
`constexpr double DEG = 360.0 / 6.28...;`, as an exact rational. -/
def twoPi : ℚ := 6283185307179586476925286766559 / 1000000000000000000000000000000

/-- `DEG`: the radians→degrees factor `360 / 2π`. -/
def DEG : ℚ := 360 / twoPi

/-- `FBX::MAGIC_NODE_TAG = "_$AssimpFbx$"`. -/
def MAGIC_NODE_TAG : List Char := "_$AssimpFbx$".toList

/-- `FBX::SEPARATOR = {'\x00', '\x01'}`. -/
def SEPARATOR : List Char := [Char.ofNat 0, Char.ofNat 1]

/-- `std::string::find`: index of the first occurrence of `needle`, if any. -/
def subIndex (needle : List Char) : List Char → Option Nat
  | [] => if needle = [] then some 0 else none
  | c :: t =>
      if needle.isPrefixOf (c :: t) then some 0
      else (subIndex needle t).map (· + 1)

mutual
/-- The scene node adapter (`aiNode`): name, local transform (carried in
decomposed TRS form, see `AiNode.decompose`), attached mesh indices and
children. -/
inductive AiNode where
  | mk (name : List Char) (scl rot tra : V3) (meshes : List Nat)
      (children : AiNodeList)
inductive AiNodeList where
  | nil
  | cons (hd : AiNode) (tl : AiNodeList)
end

/-- Modelled from the spec: `aiMatrix4x4::Decompose` (the assimp math
library, outside this repository) splits the node's 4×4 local transform
into scaling, rotation (radians) and translation; nodes here carry the
transform already decomposed, and `decompose` reads those components. -/
def AiNode.decompose : AiNode → V3 × V3 × V3
  | .mk _ s r t _ _ => (s, r, t)

def alen : AiNodeList → Nat
  | .nil => 0
  | .cons _ tl => alen tl + 1

/-- A record-level view of an FBX property value. -/
inductive PVal where
  | vI32 (v : Int)
  | vI64 (v : Int)
  | vStr (s : List Char)
  | vD (q : ℚ)
  | vBool (b : Bool)
  deriving DecidableEq

/-- A record-level view of an `FBX::Node`. -/
inductive PNode where
  | mk (name : List Char) (props : List PVal) (children : List PNode)

def PNode.name : PNode → List Char
  | .mk n _ _ => n

def PNode.props : PNode → List PVal
  | .mk _ p _ => p

def PNode.children : PNode → List PNode
  | .mk _ _ c => c

/-- The `transform_types` map: magic-suffix name to FBX property name and
transform kind character. -/
def transform_types : List (List Char × (List Char × Char)) :=
  [("Translation".toList, ("Lcl Translation".toList, 't')),
   ("RotationOffset".toList, ("RotationOffset".toList, 't')),
   ("RotationPivot".toList, ("RotationPivot".toList, 't')),
   ("PreRotation".toList, ("PreRotation".toList, 'r')),
   ("Rotation".toList, ("Lcl Rotation".toList, 'r')),
   ("PostRotation".toList, ("PostRotation".toList, 'r')),
   ("RotationPivotInverse".toList, ("RotationPivotInverse".toList, 'i')),
   ("ScalingOffset".toList, ("ScalingOffset".toList, 't')),
   ("ScalingPivot".toList, ("ScalingPivot".toList, 't')),
   ("Scaling".toList, ("Lcl Scaling".toList, 's')),
   ("ScalingPivotInverse".toList, ("ScalingPivotInverse".toList, 'i')),
   ("GeometricScaling".toList, ("GeometricScaling".toList, 's')),
   ("GeometricRotation".toList, ("GeometricRotation".toList, 'r')),
   ("GeometricTranslation".toList, ("GeometricTranslation".toList, 't'))]

/-- Errors of the model-node walk (`DeadlyExportError` sites). -/
inductive WErr where
  | malformedChain (name : List Char) (n : Nat)
  | unrecognizedChainElem (t : List Char)
  | unrecognizedKind (c : Char)
  deriving DecidableEq

/-- A `P` child of a `Properties70` block (`AddP70` and friends): the
name/type/type2/flags strings then the values. -/
def p70Node (name t1 t2 flags : List Char) (vals : List PVal) : PNode :=
  .mk "P".toList
    ([.vStr name, .vStr t1, .vStr t2, .vStr flags] ++ vals) []

/-- The `Properties70` entries from a non-empty transform chain: look each
element name up in `transform_types`; `Lcl `-prefixed FBX names become
animatable `A` entries, the rest plain `Vector3D` entries. -/
def chainP70 : List (List Char × V3) → Except WErr (List PNode)
  | [] => .ok []
  | (key, v) :: rest =>
    match List.lookup key transform_types with
    | none => .error (.unrecognizedChainElem key)
    | some (fbxName, _) =>
      let entry :=
        if fbxName.take 4 = "Lcl ".toList then
          p70Node fbxName fbxName [] "A".toList [.vD v.x, .vD v.y, .vD v.z]
        else
          p70Node fbxName "Vector3D".toList "Vector".toList []
            [.vD v.x, .vD v.y, .vD v.z]
      (chainP70 rest).map (fun l => entry :: l)

/-- The `Properties70` entries from the node's own decomposed transform
(empty chain case): only non-default components are emitted, rotations in
degrees. -/
def trsP70 (s r t : V3) : List PNode :=
  (if t ≠ V3.zero then
    [p70Node "Lcl Translation".toList "Lcl Translation".toList [] "A".toList
      [.vD t.x, .vD t.y, .vD t.z]]
   else [])
  ++ (if r ≠ V3.zero then
    [p70Node "Lcl Rotation".toList "Lcl Rotation".toList [] "A".toList
      [.vD (DEG * r.x), .vD (DEG * r.y), .vD (DEG * r.z)]]
   else [])
  ++ (if s ≠ V3.one then
    [p70Node "Lcl Scaling".toList "Lcl Scaling".toList [] "A".toList
      [.vD s.x, .vD s.y, .vD s.z]]
   else [])

/-- `WriteModelNode` (the free function): one `Model` record with
`Version=232`, a `Properties70` block opening with `RotationActive` and
`InheritType`, then the transform entries, then `Shading=true` and
`Culling="CullingOff"`. -/
def writeModelNode (node : AiNode) (nodeUid : Int) (type : List Char)
    (chain : List (List Char × V3)) (inheritType : Int) :
    Except WErr PNode :=
  match node with
  | .mk name s r t _ _ =>
    (if chain.isEmpty then Except.ok (trsP70 s r t) else chainP70 chain).map
      (fun es =>
        .mk "Model".toList
          [.vI64 nodeUid, .vStr (name ++ SEPARATOR ++ "Model".toList),
           .vStr type]
          [.mk "Version".toList [.vI32 232] [],
           .mk "Properties70".toList []
             ([p70Node "RotationActive".toList "bool".toList [] []
                 [.vI32 1],
               p70Node "InheritType".toList "enum".toList [] []
                 [.vI32 inheritType]] ++ es),
           .mk "Shading".toList [.vBool true] [],
           .mk "Culling".toList [.vStr "CullingOff".toList] []])

/-- The synthetic per-mesh child `Model` built inline in
`WriteModelNodes` for nodes holding more than one mesh (or meshes on the
root): `Version=232` and a `Properties70` holding only `InheritType=1` —
no `Shading`, no `Culling`. -/
def syntheticMeshModel (newUid : Int) (meshName : List Char) : PNode :=
  .mk "Model".toList
    [.vI64 newUid, .vStr (meshName ++ SEPARATOR ++ "Model".toList),
     .vStr "Mesh".toList]
    [.mk "Version".toList [.vI32 232] [],
     .mk "Properties70".toList []
       [p70Node "InheritType".toList "enum".toList [] [] [.vI32 1]]]

/-- An `OO` connection record `C,"OO",src,dst`. -/
def connOO (src dst : Int) : PNode :=
  .mk "C".toList [.vStr "OO".toList, .vI64 src, .vI64 dst] []

/-- The read-only scene context the walker consults: per-mesh material
indices and names, and the UID tables built earlier in `WriteObjects`. -/
structure SceneCtx where
  meshMat : List Nat
  meshNames : List (List Char)
  meshUids : List Int
  matUids : List Int

/-- The per-mesh synthetic-model loop of `WriteModelNodes`: for each mesh
index, allocate a UID, push the parent / mesh / material connections, and
dump a synthetic `Model`. -/
def synMeshLoop (sc : SceneCtx) (nodeUid : Int) :
    List Nat → Int → (List PNode × List PNode × Int)
  | [], uid => ([], [], uid)
  | mi :: rest, uid =>
    let newUid := uid + 1
    let conns := [connOO newUid nodeUid,
                  connOO (sc.meshUids.getD mi 0) newUid,
                  connOO (sc.matUids.getD (sc.meshMat.getD mi 0) 0) newUid]
    let model := syntheticMeshModel newUid (sc.meshNames.getD mi [])
    let res := synMeshLoop sc nodeUid rest newUid
    (model :: res.1, conns ++ res.2.1, res.2.2)

mutual
/-- `FBXExporter::WriteModelNodes`: collapse sentinel transform chains,
emit `Model` records, connect them, synthesise per-mesh child models,
recurse into children.  Returns the dumped records, the accumulated
connections and the UID counter. -/
def writeModelNodesW (sc : SceneCtx) (isRoot : Bool) (node : AiNode)
    (parentUid : Int) (uid : Int) (chain : List (List Char × V3)) :
    Except WErr (List PNode × List PNode × Int) :=
  match node with
  | .mk name s r t meshes children =>
    match subIndex MAGIC_NODE_TAG name with
    | some ix =>
      match children with
      | .cons c .nil =>
        let typeName := name.drop (ix + MAGIC_NODE_TAG.length + 1)
        match List.lookup typeName transform_types with
        | none => .error (.unrecognizedChainElem typeName)
        | some (_, kind) =>
          match kind with
          | 'i' => writeModelNodesW sc false c parentUid uid chain
          | 't' => writeModelNodesW sc false c parentUid uid
              (chain ++ [(typeName, t)])
          | 'r' => writeModelNodesW sc false c parentUid uid
              (chain ++ [(typeName, ⟨DEG * r.x, DEG * r.y, DEG * r.z⟩)])
          | 's' => writeModelNodesW sc false c parentUid uid
              (chain ++ [(typeName, s)])
          | k => .error (.unrecognizedKind k)
      | _ => .error (.malformedChain name (alen children))
    | none =>
      let nodeUid : Int := if isRoot then 0 else uid + 1
      let uid1 := if isRoot then uid else uid + 1
      let conns0 : List PNode :=
        if isRoot then [] else [connOO nodeUid parentUid]
      let step2 : Except WErr (List PNode × List PNode) :=
        if isRoot then .ok ([], [])
        else if meshes.length = 1 then
          let mi := meshes.getD 0 0
          (writeModelNode (.mk name s r t meshes children) nodeUid
            "Mesh".toList chain 1).map
            (fun m => ([m],
              [connOO (sc.meshUids.getD mi 0) nodeUid,
               connOO (sc.matUids.getD (sc.meshMat.getD mi 0) 0) nodeUid]))
        else
          (writeModelNode (.mk name s r t meshes children) nodeUid
            "Null".toList chain 1).map (fun m => ([m], []))
      match step2 with
      | .error e => .error e
      | .ok ms1 =>
        let syn :=
          if meshes.length > 1 ∨ isRoot = true then
            synMeshLoop sc nodeUid meshes uid1
          else ([], [], uid1)
        match writeModelNodesListW sc children nodeUid syn.2.2 with
        | .error e => .error e
        | .ok rest =>
          .ok (ms1.1 ++ syn.1 ++ rest.1,
               conns0 ++ ms1.2 ++ syn.2.1 ++ rest.2.1, rest.2.2)
def writeModelNodesListW (sc : SceneCtx) : AiNodeList → Int → Int →
    Except WErr (List PNode × List PNode × Int)
  | .nil, _, uid => .ok ([], [], uid)
  | .cons c cs, parentUid, uid =>
    match writeModelNodesW sc false c parentUid uid [] with
    | .error e => .error e
    | .ok first =>
      match writeModelNodesListW sc cs parentUid first.2.2 with
      | .error e => .error e
      | .ok more =>
        .ok (first.1 ++ more.1, first.2.1 ++ more.2.1, more.2.2)
end

/-- The chain entry a recognised sentinel node contributes: translations
and scalings verbatim, rotations scaled by `DEG`, inverse-pivot kinds
nothing. -/
def chainDelta (kind : Char) (typeName : List Char) (s r t : V3) :
    List (List Char × V3) :=
  match kind with
  | 't' => [(typeName, t)]
  | 'r' => [(typeName, ⟨DEG * r.x, DEG * r.y, DEG * r.z⟩)]
  | 's' => [(typeName, s)]
  | _ => []

/-- Scenario 5 of the spec: `Root → "X_$AssimpFbx$_Translation"
(T=(1,2,3)) → "X_$AssimpFbx$_Rotation" (R=(2π/4,0,0)) → "X"`. -/
def sceneX : SceneCtx := ⟨[], [], [], []⟩

def nodeX : AiNode :=
  .mk "X".toList ⟨1, 1, 1⟩ ⟨0, 0, 0⟩ ⟨0, 0, 0⟩ [] .nil

def nodeXR : AiNode :=
  .mk "X_$AssimpFbx$_Rotation".toList ⟨1, 1, 1⟩ ⟨twoPi / 4, 0, 0⟩ ⟨0, 0, 0⟩
    [] (.cons nodeX .nil)

def nodeXT : AiNode :=
  .mk "X_$AssimpFbx$_Translation".toList ⟨1, 1, 1⟩ ⟨0, 0, 0⟩ ⟨1, 2, 3⟩
    [] (.cons nodeXR .nil)

def rootX : AiNode :=
  .mk "Root".toList ⟨1, 1, 1⟩ ⟨0, 0, 0⟩ ⟨0, 0, 0⟩ [] (.cons nodeXT .nil)

/-- C4.  Sentinel tagged nodes never emit a `Model` record: the walk
reduces them to the walk of their single child with the decomposed
component appended to the chain (rotations multiplied by `360/2π`,
inverse-pivot elements skipped); and on the concrete chain
`Root → Translation(1,2,3) → Rotation(2π/4,0,0) → X` the whole walk
emits exactly one `Model` record, named "X", whose `Properties70`
carries `Lcl Translation=(1,2,3)` and `Lcl Rotation=(90,0,0)`. -/
theorem c4_transform_chain_collapse :
    (∀ (sc : SceneCtx) (b : Bool) (name : List Char) (s r t : V3)
        (meshes : List Nat) (c : AiNode) (parentUid uid : Int)
        (chain : List (List Char × V3)) (ix : Nat) (fbxName : List Char)
        (kind : Char),
      subIndex MAGIC_NODE_TAG name = some ix →
      List.lookup (name.drop (ix + MAGIC_NODE_TAG.length + 1))
          transform_types = some (fbxName, kind) →
      (kind = 'i' →
        writeModelNodesW sc b (.mk name s r t meshes (.cons c .nil))
            parentUid uid chain
          = writeModelNodesW sc false c parentUid uid chain)
      ∧ (kind = 't' →
        writeModelNodesW sc b (.mk name s r t meshes (.cons c .nil))
            parentUid uid chain
          = writeModelNodesW sc false c parentUid uid
              (chain ++ [(name.drop (ix + MAGIC_NODE_TAG.length + 1), t)]))
      ∧ (kind = 'r' →
        writeModelNodesW sc b (.mk name s r t meshes (.cons c .nil))
            parentUid uid chain
          = writeModelNodesW sc false c parentUid uid
              (chain ++ [(name.drop (ix + MAGIC_NODE_TAG.length + 1),
                ⟨DEG * r.x, DEG * r.y, DEG * r.z⟩)]))
      ∧ (kind = 's' →
        writeModelNodesW sc b (.mk name s r t meshes (.cons c .nil))
            parentUid uid chain
          = writeModelNodesW sc false c parentUid uid
              (chain ++ [(name.drop (ix + MAGIC_NODE_TAG.length + 1), s)])))
    ∧ writeModelNodesW sceneX true rootX 0 999999 []
        = .ok ([PNode.mk "Model".toList
            [.vI64 1000000,
             .vStr ("X".toList ++ SEPARATOR ++ "Model".toList),
             .vStr "Null".toList]
            [.mk "Version".toList [.vI32 232] [],
             .mk "Properties70".toList []
               [p70Node "RotationActive".toList "bool".toList [] []
                  [.vI32 1],
                p70Node "InheritType".toList "enum".toList [] [] [.vI32 1],
                p70Node "Lcl Translation".toList "Lcl Translation".toList
                  [] "A".toList [.vD 1, .vD 2, .vD 3],
                p70Node "Lcl Rotation".toList "Lcl Rotation".toList
                  [] "A".toList [.vD 90, .vD 0, .vD 0]],
             .mk "Shading".toList [.vBool true] [],
             .mk "Culling".toList [.vStr "CullingOff".toList] []]],
           [connOO 1000000 0], 1000000) := by
  constructor
  · intro sc b name s r t meshes c parentUid uid chain ix fbxName kind h1 h2
    refine ⟨?_, ?_, ?_, ?_⟩ <;> intro hk <;> subst hk <;>
      simp only [writeModelNodesW, h1, h2]
  · have hbase : writeModelNodesW sceneX true rootX 0 999999 []
        = .ok ([PNode.mk "Model".toList
            [.vI64 1000000,
             .vStr ("X".toList ++ SEPARATOR ++ "Model".toList),
             .vStr "Null".toList]
            [.mk "Version".toList [.vI32 232] [],
             .mk "Properties70".toList []
               [p70Node "RotationActive".toList "bool".toList [] []
                  [.vI32 1],
                p70Node "InheritType".toList "enum".toList [] [] [.vI32 1],
                p70Node "Lcl Translation".toList "Lcl Translation".toList
                  [] "A".toList [.vD 1, .vD 2, .vD 3],
                p70Node "Lcl Rotation".toList "Lcl Rotation".toList
                  [] "A".toList
                  [.vD (DEG * (twoPi / 4)), .vD (DEG * 0), .vD (DEG * 0)]],
             .mk "Shading".toList [.vBool true] [],
             .mk "Culling".toList [.vStr "CullingOff".toList] []]],
           [connOO 1000000 0], 1000000) := rfl
    rw [hbase]
    have h90 : DEG * (twoPi / 4) = 90 := by norm_num [DEG, twoPi]
    have h0 : DEG * 0 = 0 := by norm_num
    rw [h90, h0]

/-- Witness for C4's general part at the concrete translation sentinel
node of the scenario. -/
theorem c4_transform_chain_collapse_witness :
    (subIndex MAGIC_NODE_TAG "X_$AssimpFbx$_Translation".toList = some 1
      ∧ List.lookup ("X_$AssimpFbx$_Translation".toList.drop
          (1 + MAGIC_NODE_TAG.length + 1)) transform_types
        = some ("Lcl Translation".toList, 't'))
    ∧ writeModelNodesW sceneX false nodeXT 0 999999 []
        = writeModelNodesW sceneX false nodeXR 0 999999
            ([] ++ [("X_$AssimpFbx$_Translation".toList.drop
              (1 + MAGIC_NODE_TAG.length + 1), (⟨1, 2, 3⟩ : V3))]) :=
  ⟨⟨by decide, by decide⟩,
   ((c4_transform_chain_collapse.1 sceneX false
      "X_$AssimpFbx$_Translation".toList ⟨1, 1, 1⟩ ⟨0, 0, 0⟩ ⟨1, 2, 3⟩ []
      nodeXR 0 999999 [] 1 "Lcl Translation".toList 't'
      (by decide) (by decide)).2.1) rfl⟩

/-- C7.  A sentinel-tagged node with a number of children different from
one makes the walk fail with the malformed-transform-chain error; with
exactly one child and a recognised chain-element suffix it does not
raise that error — the walk continues into the child with the extended
chain. -/
theorem c7_malformed_transform_chain :
    (∀ (sc : SceneCtx) (b : Bool) (name : List Char) (s r t : V3)
        (meshes : List Nat) (children : AiNodeList) (parentUid uid : Int)
        (chain : List (List Char × V3)) (ix : Nat),
      subIndex MAGIC_NODE_TAG name = some ix →
      alen children ≠ 1 →
      writeModelNodesW sc b (.mk name s r t meshes children)
          parentUid uid chain
        = .error (.malformedChain name (alen children)))
    ∧ (∀ (sc : SceneCtx) (b : Bool) (name : List Char) (s r t : V3)
        (meshes : List Nat) (c : AiNode) (parentUid uid : Int)
        (chain : List (List Char × V3)) (ix : Nat) (fbxName : List Char)
        (kind : Char),
      subIndex MAGIC_NODE_TAG name = some ix →
      List.lookup (name.drop (ix + MAGIC_NODE_TAG.length + 1))
          transform_types = some (fbxName, kind) →
      (kind = 't' ∨ kind = 'r' ∨ kind = 's' ∨ kind = 'i') →
      writeModelNodesW sc b (.mk name s r t meshes (.cons c .nil))
          parentUid uid chain
        = writeModelNodesW sc false c parentUid uid
            (chain ++ chainDelta kind
              (name.drop (ix + MAGIC_NODE_TAG.length + 1)) s r t)) := by
  constructor
  · intro sc b name s r t meshes children parentUid uid chain ix h1 h2
    simp only [writeModelNodesW, h1]
    cases children with
    | nil => rfl
    | cons c cs =>
      cases cs with
      | nil =>
        exfalso
        exact h2 (by simp [alen])
      | cons c2 cs2 => rfl
  · intro sc b name s r t meshes c parentUid uid chain ix fbxName kind h1 h2 hk
    rcases hk with hk | hk | hk | hk <;> subst hk <;>
      simp [writeModelNodesW, h1, h2, chainDelta]

/-- Witness for C7 at a two-child sentinel node (fails) and at the
scenario's one-child sentinel node (continues into the child). -/
theorem c7_malformed_transform_chain_witness :
    (subIndex MAGIC_NODE_TAG "Bad_$AssimpFbx$_Rotation".toList = some 3
      ∧ alen (.cons nodeX (.cons nodeX .nil)) ≠ 1)
    ∧ writeModelNodesW sceneX false
        (.mk "Bad_$AssimpFbx$_Rotation".toList ⟨1, 1, 1⟩ ⟨0, 0, 0⟩
          ⟨0, 0, 0⟩ [] (.cons nodeX (.cons nodeX .nil))) 0 999999 []
        = .error (.malformedChain "Bad_$AssimpFbx$_Rotation".toList
            (alen (.cons nodeX (.cons nodeX .nil)))) :=
  ⟨⟨by decide, by decide⟩,
   c7_malformed_transform_chain.1 sceneX false
     "Bad_$AssimpFbx$_Rotation".toList ⟨1, 1, 1⟩ ⟨0, 0, 0⟩ ⟨0, 0, 0⟩ []
     (.cons nodeX (.cons nodeX .nil)) 0 999999 [] 3
     (by decide) (by decide)⟩

/-- Scene for the multi-mesh counterexample: one node with two meshes. -/
def sceneY : SceneCtx :=
  ⟨[0, 0], ["A".toList, "B".toList], [7001, 7002], [8001]⟩

def nodeY : AiNode :=
  .mk "Y".toList ⟨1, 1, 1⟩ ⟨0, 0, 0⟩ ⟨0, 0, 0⟩ [0, 1] .nil

def rootY : AiNode :=
  .mk "RootY".toList ⟨1, 1, 1⟩ ⟨0, 0, 0⟩ ⟨0, 0, 0⟩ [] (.cons nodeY .nil)

/-- The child names of the second emitted model record of the
two-meshes-under-one-node scene (a synthetic per-mesh model). -/
def synChildNames : List (List Char) :=
  match writeModelNodesW sceneY true rootY 0 999999 [] with
  | .ok res => (res.1.getD 1 (.mk [] [] [])).children.map PNode.name
  | .error _ => []

/-- Counterexample to C8 as stated: in the two-meshes-under-one-node
scene, the first synthetic child `Model` record has only `Version` and
`Properties70` children — no `Shading=true` and no
`Culling="CullingOff"`. -/
theorem c8_counterexample_synthetic_model :
    synChildNames = ["Version".toList, "Properties70".toList]
    ∧ ¬ ("Shading".toList ∈ synChildNames)
    ∧ ¬ ("Culling".toList ∈ synChildNames) := by
  refine ⟨rfl, by decide, by decide⟩

/-- C8 as amended.  Every `Model` record emitted through
`WriteModelNode` has `Version=232`, a `Properties70` block opening with
`RotationActive` and the inherit type (default `RSrs`, enum 1), then
`Shading=true` and `Culling="CullingOff"`; the synthetic per-mesh child
models have `Version=232` and a `Properties70` holding only
`InheritType=1`, with no `Shading` or `Culling` children. -/
theorem c8_model_record_shape :
    (∀ (node : AiNode) (uidv : Int) (type : List Char)
        (chain : List (List Char × V3)) (inheritType : Int) (m : PNode),
      writeModelNode node uidv type chain inheritType = .ok m →
      ∃ entries nm sv rv tv,
        node.decompose = (sv, rv, tv)
        ∧ nm = (match node with | .mk n _ _ _ _ _ => n)
        ∧ m = .mk "Model".toList
            [.vI64 uidv, .vStr (nm ++ SEPARATOR ++ "Model".toList),
             .vStr type]
            [.mk "Version".toList [.vI32 232] [],
             .mk "Properties70".toList []
               ([p70Node "RotationActive".toList "bool".toList [] []
                   [.vI32 1],
                 p70Node "InheritType".toList "enum".toList [] []
                   [.vI32 inheritType]] ++ entries),
             .mk "Shading".toList [.vBool true] [],
             .mk "Culling".toList [.vStr "CullingOff".toList] []])
    ∧ (∀ (uidv : Int) (meshName : List Char),
      syntheticMeshModel uidv meshName
        = .mk "Model".toList
            [.vI64 uidv, .vStr (meshName ++ SEPARATOR ++ "Model".toList),
             .vStr "Mesh".toList]
            [.mk "Version".toList [.vI32 232] [],
             .mk "Properties70".toList []
               [p70Node "InheritType".toList "enum".toList [] []
                 [.vI32 1]]]) := by
  constructor
  · intro node uidv type chain inheritType m h
    cases node with
    | mk name s r t meshes children =>
      rw [writeModelNode] at h
      match he : (if chain.isEmpty then Except.ok (trsP70 s r t)
          else chainP70 chain) with
      | .error e =>
        rw [he] at h
        simp [Except.map] at h
      | .ok es =>
        rw [he] at h
        simp only [Except.map] at h
        refine ⟨es, name, s, r, t, rfl, rfl, ?_⟩
        injection h with h2
        exact h2.symm
  · intro uidv meshName
    rfl

/-- Witness for C8's amended claim: the "Null" model of the two-mesh
node has the stated shape (with no extra entries), via the theorem. -/
theorem c8_model_record_shape_witness :
    writeModelNode nodeY 1000000 "Null".toList [] 1
        = .ok (.mk "Model".toList
            [.vI64 1000000,
             .vStr ("Y".toList ++ SEPARATOR ++ "Model".toList),
             .vStr "Null".toList]
            [.mk "Version".toList [.vI32 232] [],
             .mk "Properties70".toList []
               [p70Node "RotationActive".toList "bool".toList [] []
                  [.vI32 1],
                p70Node "InheritType".toList "enum".toList [] [] [.vI32 1]],
             .mk "Shading".toList [.vBool true] [],
             .mk "Culling".toList [.vStr "CullingOff".toList] []])
    ∧ ∃ entries nm sv rv tv,
        nodeY.decompose = (sv, rv, tv)
        ∧ nm = (match nodeY with | .mk n _ _ _ _ _ => n)
        ∧ (PNode.mk "Model".toList
            [.vI64 1000000,
             .vStr ("Y".toList ++ SEPARATOR ++ "Model".toList),
             .vStr "Null".toList]
            [.mk "Version".toList [.vI32 232] [],
             .mk "Properties70".toList []
               [p70Node "RotationActive".toList "bool".toList [] []
                  [.vI32 1],
                p70Node "InheritType".toList "enum".toList [] [] [.vI32 1]],
             .mk "Shading".toList [.vBool true] [],
             .mk "Culling".toList [.vStr "CullingOff".toList] []])
          = .mk "Model".toList
              [.vI64 1000000, .vStr (nm ++ SEPARATOR ++ "Model".toList),
               .vStr "Null".toList]
              [.mk "Version".toList [.vI32 232] [],
               .mk "Properties70".toList []
                 ([p70Node "RotationActive".toList "bool".toList [] []
                     [.vI32 1],
                   p70Node "InheritType".toList "enum".toList [] []
                     [.vI32 1]] ++ entries),
               .mk "Shading".toList [.vBool true] [],
               .mk "Culling".toList [.vStr "CullingOff".toList] []] :=
  ⟨rfl, c8_model_record_shape.1 nodeY 1000000 "Null".toList [] 1 _ rfl⟩

/-! ## C5: ASCII emission

`ExportAscii` (FBXExporter.cpp) opens the file in text mode, writes an
ASCII comment header, and then calls `WriteAllNodes` — the very same
section writers that serialise records through the binary
`Property::Dump` / `Node::Dump` shown above.  There is no ASCII property
or record emitter anywhere in the source: a boolean property is written
as the binary tag byte `C` (0x43) followed by 0x01, never as the ASCII
character `T`. -/

/-- Modelled from the spec: the FBX ASCII textual form of a boolean is
the single character `T` (true) or `F` (false), with no surrounding
punctuation. -/
def asciiBoolText (b : Bool) : List Nat := [if b then 84 else 70]

/-- C5 (code bug).  At the failing input — a boolean property `true` and
a record named `S` holding it, emitted in ASCII mode — the code writes
the binary layout: `Property::Dump` produces the tag/payload bytes
`[0x43, 0x01]`, not the ASCII text `T`, and the record starts with its
little-endian end offset (16 for this record), not with the record name
text (`S` = 0x53). -/
theorem c5_ascii_mode_emits_binary :
    propBytes (.pC true) = [67, 1]
    ∧ propBytes (.pC true) ≠ asciiBoolText true
    ∧ (dumpNode (.mk [83] [.pC true] .nil) ⟨[], 0⟩).data.headD 0 = 16
    ∧ (16 : Nat) ≠ 83 := by
  refine ⟨rfl, by decide, by decide, by decide⟩

/-! ## C6: the `Definitions` section counts

`WriteDefinitions` pushes one `ObjectType` block per category with a
non-zero count and accumulates `total_count`; the `NodeAttribute`,
`Pose`, `Deformer` and template blocks are behind `count = 0; if
(count)` and can never appear, so they are omitted here. -/

mutual
/-- `count_nodes`: recursive node count of a subtree. -/
def count_nodes : AiNode → Nat
  | .mk _ _ _ _ _ children => 1 + count_nodes_list children
def count_nodes_list : AiNodeList → Nat
  | .nil => 0
  | .cons c cs => count_nodes c + count_nodes_list cs
end

/-- The material slice consulted by `WriteDefinitions`: shininess (for
the Phong/Lambert template choice) and the texture count per texture
type in the `[DIFFUSE, UNKNOWN)` range. -/
structure MatDef where
  shininess : ℚ
  texCounts : List Nat

/-- The scene slice consulted by `WriteDefinitions`. -/
structure SceneDef where
  root : AiNode
  numMeshes : Nat
  materials : List MatDef

/-- `count_textures`: for each material, one per texture type with a
non-zero texture count. -/
def count_textures (sc : SceneDef) : Nat :=
  sc.materials.foldl
    (fun acc m => acc + m.texCounts.countP (fun c => decide (0 < c))) 0

/-- The `ObjectType` categories `WriteDefinitions` emits, with their
counts: `GlobalSettings`, `AnimationStack` and `AnimationLayer` always,
then `Model` / `Geometry` / `Material` / `Texture` when non-zero. -/
def definitionsCategories (sc : SceneDef) : List (List Char × Nat) :=
  [("GlobalSettings".toList, 1), ("AnimationStack".toList, 1),
   ("AnimationLayer".toList, 1)]
  ++ (if count_nodes sc.root ≠ 0 then
        [("Model".toList, count_nodes sc.root)] else [])
  ++ (if sc.numMeshes ≠ 0 then [("Geometry".toList, sc.numMeshes)] else [])
  ++ (if sc.materials.length ≠ 0 then
        [("Material".toList, sc.materials.length)] else [])
  ++ (if count_textures sc ≠ 0 then
        [("Texture".toList, count_textures sc)] else [])

/-- The `total_count` accumulator written as `Count` at the top of
`Definitions`. -/
def definitionsTotalCount (sc : SceneDef) : Nat :=
  1 + 1 + 1
  + (if count_nodes sc.root ≠ 0 then count_nodes sc.root else 0)
  + (if sc.numMeshes ≠ 0 then sc.numMeshes else 0)
  + (if sc.materials.length ≠ 0 then sc.materials.length else 0)
  + (if count_textures sc ≠ 0 then count_textures sc else 0)

/-- The empty scene of the claim: a single scene node, no meshes, no
materials. -/
def singleNodeScene : SceneDef :=
  ⟨.mk "Scene".toList ⟨1, 1, 1⟩ ⟨0, 0, 0⟩ ⟨0, 0, 0⟩ [] .nil, 0, []⟩

/-- Counterexample to C6 as stated: for the single-node empty scene the
emitted `Count` is 4, not 3 — the `Model` category always contributes
`count_nodes(root) = 1` as a fourth category. -/
theorem c6_counterexample_definitions_count :
    definitionsTotalCount singleNodeScene = 4
    ∧ ¬ definitionsTotalCount singleNodeScene = 3 := by
  refine ⟨rfl, by decide⟩

/-- C6 as amended.  For a single-scene-node scene with no meshes and no
materials, `Definitions` carries `Count=4`: GlobalSettings,
AnimationStack and AnimationLayer contribute one each and Model
contributes `count_nodes(root) = 1`; and for every scene the emitted
`Count` is the sum of the category counts. -/
theorem c6_definitions_count :
    definitionsTotalCount singleNodeScene = 4
    ∧ definitionsCategories singleNodeScene
        = [("GlobalSettings".toList, 1), ("AnimationStack".toList, 1),
           ("AnimationLayer".toList, 1), ("Model".toList, 1)]
    ∧ ∀ sc : SceneDef, definitionsTotalCount sc
        = ((definitionsCategories sc).map (·.2)).sum := by
  refine ⟨rfl, rfl, ?_⟩
  intro sc
  rw [definitionsCategories, definitionsTotalCount]
  by_cases h1 : count_nodes sc.root ≠ 0 <;>
    by_cases h2 : sc.numMeshes ≠ 0 <;>
    by_cases h3 : sc.materials.length ≠ 0 <;>
    by_cases h4 : count_textures sc ≠ 0 <;>
    simp [h1, h2, h3, h4] <;> omega

/-! ## C9: the binary footer -/

/-- `GENERIC_FOOTID`: the 16-byte footer magic. -/
def FOOT_MAGIC : List Nat :=
  [0xfa, 0xbc, 0xab, 0x09, 0xd0, 0xc8, 0xd4, 0x66,
   0xb1, 0x76, 0xfb, 0x83, 0x1c, 0xf7, 0x26, 0x7e]

/-- The final 16-byte magic tail written by `WriteBinaryFooter`. -/
def FOOT_TAIL : List Nat :=
  [0xf8, 0x5a, 0x8c, 0x6a, 0xde, 0xf5, 0xd9, 0x7e,
   0xec, 0xe9, 0x0c, 0xe3, 0x75, 0x8f, 0x29, 0x0b]

/-- `FBXExporter::WriteBinaryFooter`: NULL record, footer magic, 4 NUL
bytes, NUL padding to the next 16-byte boundary (a full 16 when already
aligned), the version u32 again, 120 NUL bytes, the magic tail. -/
def writeBinaryFooter (s : WStream) : WStream :=
  let s1 := wputs s NULL_RECORD_BYTES
  let s2 := wputs s1 FOOT_MAGIC
  let s3 := wputs s2 (List.replicate 4 0)
  let pad := 16 - s3.pos % 16
  let s4 := wputs s3 (List.replicate pad 0)
  let s5 := wputU4 s4 7400
  let s6 := wputs s5 (List.replicate 120 0)
  wputs s6 FOOT_TAIL

/-- The NUL padding width for a footer whose NULL record started at
stream position `p`. -/
def footerPad (p : Nat) : Nat := 16 - (p + 33) % 16

/-- The footer bytes as a pure function of the entry position. -/
def footerBytes (p : Nat) : List Nat :=
  NULL_RECORD_BYTES ++ FOOT_MAGIC ++ List.replicate 4 0
    ++ List.replicate (footerPad p) 0 ++ u32LE 7400
    ++ List.replicate 120 0 ++ FOOT_TAIL

/-- C9.  At the end of the stream, `WriteBinaryFooter` appends exactly:
the 13-byte NULL terminator, the 16-byte footer magic, 4 NUL bytes, NUL
padding up to the next 16-byte stream boundary (at least 1, at most 16
bytes, a full 16 when already aligned), the version u32 (7400,
little-endian), 120 NUL bytes, and the final 16-byte magic tail; the
total footer length `173 + pad` is a function of the entry position
alone. -/
theorem c9_binary_footer (s : WStream) (h : s.pos = s.data.length) :
    writeBinaryFooter s
        = ⟨s.data ++ footerBytes s.pos, s.pos + 173 + footerPad s.pos⟩
    ∧ (footerBytes s.pos).length = 173 + footerPad s.pos
    ∧ 1 ≤ footerPad s.pos ∧ footerPad s.pos ≤ 16
    ∧ (s.pos + 33 + footerPad s.pos) % 16 = 0 := by
  obtain ⟨D, pos⟩ := s
  have hpos : pos = D.length := h
  subst hpos
  refine ⟨?_, ?_, ?_, ?_, ?_⟩
  · rw [writeBinaryFooter]
    have e1 : wputs ⟨D, D.length⟩ NULL_RECORD_BYTES
        = ⟨D ++ NULL_RECORD_BYTES, D.length + 13⟩ :=
      wputs_at_end _ _ rfl
    have e2 : wputs ⟨D ++ NULL_RECORD_BYTES, D.length + 13⟩ FOOT_MAGIC
        = ⟨D ++ NULL_RECORD_BYTES ++ FOOT_MAGIC, D.length + 13 + 16⟩ :=
      wputs_at_end _ _ (by simp [NULL_RECORD_BYTES])
    have e3 : wputs ⟨D ++ NULL_RECORD_BYTES ++ FOOT_MAGIC, D.length + 13 + 16⟩
          (List.replicate 4 0)
        = ⟨D ++ NULL_RECORD_BYTES ++ FOOT_MAGIC ++ List.replicate 4 0,
           D.length + 13 + 16 + 4⟩ :=
      wputs_at_end _ _ (by simp [NULL_RECORD_BYTES, FOOT_MAGIC])
    rw [e1, e2, e3]
    dsimp only
    have hpad : 16 - (D.length + 13 + 16 + 4) % 16 = footerPad D.length := by
      rw [footerPad]
    rw [hpad]
    have e4 : wputs ⟨D ++ NULL_RECORD_BYTES ++ FOOT_MAGIC
            ++ List.replicate 4 0, D.length + 13 + 16 + 4⟩
          (List.replicate (footerPad D.length) 0)
        = ⟨D ++ NULL_RECORD_BYTES ++ FOOT_MAGIC ++ List.replicate 4 0
            ++ List.replicate (footerPad D.length) 0,
           D.length + 13 + 16 + 4 + footerPad D.length⟩ := by
      rw [wputs_at_end _ _ (by simp [NULL_RECORD_BYTES, FOOT_MAGIC])]
      simp
    rw [e4]
    have e5 : wputU4 ⟨D ++ NULL_RECORD_BYTES ++ FOOT_MAGIC
            ++ List.replicate 4 0 ++ List.replicate (footerPad D.length) 0,
           D.length + 13 + 16 + 4 + footerPad D.length⟩ 7400
        = ⟨D ++ NULL_RECORD_BYTES ++ FOOT_MAGIC ++ List.replicate 4 0
            ++ List.replicate (footerPad D.length) 0 ++ u32LE 7400,
           D.length + 13 + 16 + 4 + footerPad D.length + 4⟩ := by
      rw [wputU4, wputs_at_end _ _
        (by simp [NULL_RECORD_BYTES, FOOT_MAGIC]; omega)]
      simp [u32LE]
    rw [e5]
    have e6 : wputs ⟨D ++ NULL_RECORD_BYTES ++ FOOT_MAGIC
            ++ List.replicate 4 0 ++ List.replicate (footerPad D.length) 0
            ++ u32LE 7400,
           D.length + 13 + 16 + 4 + footerPad D.length + 4⟩
          (List.replicate 120 0)
        = ⟨D ++ NULL_RECORD_BYTES ++ FOOT_MAGIC ++ List.replicate 4 0
            ++ List.replicate (footerPad D.length) 0 ++ u32LE 7400
            ++ List.replicate 120 0,
           D.length + 13 + 16 + 4 + footerPad D.length + 4 + 120⟩ := by
      rw [wputs_at_end _ _
        (by simp [NULL_RECORD_BYTES, FOOT_MAGIC, u32LE]; omega)]
      simp
    rw [e6]
    have e7 : wputs ⟨D ++ NULL_RECORD_BYTES ++ FOOT_MAGIC
            ++ List.replicate 4 0 ++ List.replicate (footerPad D.length) 0
            ++ u32LE 7400 ++ List.replicate 120 0,
           D.length + 13 + 16 + 4 + footerPad D.length + 4 + 120⟩
          FOOT_TAIL
        = ⟨D ++ NULL_RECORD_BYTES ++ FOOT_MAGIC ++ List.replicate 4 0
            ++ List.replicate (footerPad D.length) 0 ++ u32LE 7400
            ++ List.replicate 120 0 ++ FOOT_TAIL,
           D.length + 13 + 16 + 4 + footerPad D.length + 4 + 120 + 16⟩ := by
      rw [wputs_at_end _ _
        (by simp [NULL_RECORD_BYTES, FOOT_MAGIC, u32LE]; omega)]
      simp [FOOT_TAIL]
    rw [e7]
    rw [footerBytes]
    simp only [WStream.mk.injEq]
    constructor
    · simp [List.append_assoc]
    · omega
  · rw [footerBytes]
    simp only [List.length_append, NULL_RECORD_BYTES, FOOT_MAGIC, FOOT_TAIL,
      u32LE, List.length_replicate, List.length_cons, List.length_nil]
    omega
  · rw [footerPad]; omega
  · rw [footerPad]; omega
  · rw [footerPad]; omega

/-- Witness for C9 on the empty stream. -/
theorem c9_binary_footer_witness :
    ((⟨[], 0⟩ : WStream).pos = (⟨[], 0⟩ : WStream).data.length)
    ∧ (writeBinaryFooter ⟨[], 0⟩
        = ⟨([] : List Nat) ++ footerBytes (⟨[], 0⟩ : WStream).pos,
           (⟨[], 0⟩ : WStream).pos + 173
             + footerPad (⟨[], 0⟩ : WStream).pos⟩
      ∧ (footerBytes (⟨[], 0⟩ : WStream).pos).length
          = 173 + footerPad (⟨[], 0⟩ : WStream).pos
      ∧ 1 ≤ footerPad (⟨[], 0⟩ : WStream).pos
        ∧ footerPad (⟨[], 0⟩ : WStream).pos ≤ 16
      ∧ ((⟨[], 0⟩ : WStream).pos + 33
          + footerPad (⟨[], 0⟩ : WStream).pos) % 16 = 0) :=
  ⟨rfl, c9_binary_footer ⟨[], 0⟩ rfl⟩

end FBXE
